import Mathlib

/-!
Verification of the "Extrude Separate Faces" node
(`src/nodes/modifier_change/extrude_separate.py`, class `SvExtrudeSeparateNode`).

The node's geometry is embedded shallowly: vertex coordinates are real
numbers, `mathutils` vectors and 4x4 affine matrices become explicit records,
and the host mesh kernel's operators (`bmesh.ops.extrude_discrete_faces`,
`bmesh.ops.scale`, `bmesh.ops.translate`, `bmesh.ops.transform`) are modelled
as pure functions on an indexed mesh, following the behaviour the spec
documents for them.  Sverchok helpers that live outside the two given source
files (`fullList`, `match_long_repeat`, `bmesh_from_pydata`,
`pydata_from_bmesh`, `fill_faces_layer`) are modelled from the spec; each such
definition says so in its doc comment.
-/

namespace ExtrudeSep

/-- 3-component vector, modelling a `mathutils.Vector` of floats
(coordinates idealised as real numbers). -/
structure V3 where
  x : ℝ
  y : ℝ
  z : ℝ

def V3.zero : V3 := ⟨0, 0, 0⟩

instance : Zero V3 := ⟨V3.zero⟩

def V3.add (a b : V3) : V3 := ⟨a.x + b.x, a.y + b.y, a.z + b.z⟩

instance : Add V3 := ⟨V3.add⟩

def V3.smul (r : ℝ) (v : V3) : V3 := ⟨r * v.x, r * v.y, r * v.z⟩

instance : SMul ℝ V3 := ⟨V3.smul⟩

/-- Componentwise product; models how `bmesh.ops.scale` applies its
`vec` argument to a coordinate triple. -/
def V3.hmulV (a b : V3) : V3 := ⟨a.x * b.x, a.y * b.y, a.z * b.z⟩

/-- Cross product, modelling `mathutils.Vector.cross`. -/
def V3.cross (a b : V3) : V3 :=
  ⟨a.y * b.z - a.z * b.y, a.z * b.x - a.x * b.z, a.x * b.y - a.y * b.x⟩

/-- Dot product. -/
def V3.dot (a b : V3) : ℝ := a.x * b.x + a.y * b.y + a.z * b.z

/-- Squared Euclidean length. -/
def V3.sqnorm (v : V3) : ℝ := v.dot v

/-- Euclidean length, as computed by `mathutils.Vector.length`. -/
noncomputable def V3.len (v : V3) : ℝ := Real.sqrt v.sqnorm

/-- Models `mathutils.Vector.normalized()`: divides by the length; on the
zero vector the division by zero yields the zero vector again,
matching mathutils' behaviour of returning a zero vector. -/
noncomputable def V3.normalized (v : V3) : V3 := (1 / v.len) • v

/-- 3x3 matrix, row-major fields. -/
structure M3 where
  m00 : ℝ
  m01 : ℝ
  m02 : ℝ
  m10 : ℝ
  m11 : ℝ
  m12 : ℝ
  m20 : ℝ
  m21 : ℝ
  m22 : ℝ

theorem M3.entries_ext {A B : M3}
    (h00 : A.m00 = B.m00) (h01 : A.m01 = B.m01) (h02 : A.m02 = B.m02)
    (h10 : A.m10 = B.m10) (h11 : A.m11 = B.m11) (h12 : A.m12 = B.m12)
    (h20 : A.m20 = B.m20) (h21 : A.m21 = B.m21) (h22 : A.m22 = B.m22) :
    A = B := by
  cases A; cases B; simp_all

def M3.id : M3 := ⟨1, 0, 0, 0, 1, 0, 0, 0, 1⟩

def M3.mul (A B : M3) : M3 :=
  ⟨A.m00 * B.m00 + A.m01 * B.m10 + A.m02 * B.m20,
   A.m00 * B.m01 + A.m01 * B.m11 + A.m02 * B.m21,
   A.m00 * B.m02 + A.m01 * B.m12 + A.m02 * B.m22,
   A.m10 * B.m00 + A.m11 * B.m10 + A.m12 * B.m20,
   A.m10 * B.m01 + A.m11 * B.m11 + A.m12 * B.m21,
   A.m10 * B.m02 + A.m11 * B.m12 + A.m12 * B.m22,
   A.m20 * B.m00 + A.m21 * B.m10 + A.m22 * B.m20,
   A.m20 * B.m01 + A.m21 * B.m11 + A.m22 * B.m21,
   A.m20 * B.m02 + A.m21 * B.m12 + A.m22 * B.m22⟩

def M3.apply (A : M3) (v : V3) : V3 :=
  ⟨A.m00 * v.x + A.m01 * v.y + A.m02 * v.z,
   A.m10 * v.x + A.m11 * v.y + A.m12 * v.z,
   A.m20 * v.x + A.m21 * v.y + A.m22 * v.z⟩

def M3.det (A : M3) : ℝ :=
  A.m00 * (A.m11 * A.m22 - A.m12 * A.m21)
  - A.m01 * (A.m10 * A.m22 - A.m12 * A.m20)
  + A.m02 * (A.m10 * A.m21 - A.m11 * A.m20)

/-- Adjugate (transpose of the cofactor matrix). -/
def M3.adjugate (A : M3) : M3 :=
  ⟨A.m11 * A.m22 - A.m12 * A.m21,
   A.m02 * A.m21 - A.m01 * A.m22,
   A.m01 * A.m12 - A.m02 * A.m11,
   A.m12 * A.m20 - A.m10 * A.m22,
   A.m00 * A.m22 - A.m02 * A.m20,
   A.m02 * A.m10 - A.m00 * A.m12,
   A.m10 * A.m21 - A.m11 * A.m20,
   A.m01 * A.m20 - A.m00 * A.m21,
   A.m00 * A.m11 - A.m01 * A.m10⟩

def M3.smulM (r : ℝ) (A : M3) : M3 :=
  ⟨r * A.m00, r * A.m01, r * A.m02,
   r * A.m10, r * A.m11, r * A.m12,
   r * A.m20, r * A.m21, r * A.m22⟩

/-- Matrix inverse by the adjugate formula; junk (the zero matrix) when the
determinant is zero, a case the node never reaches (see `frameMat_det_pos`). -/
noncomputable def M3.inv (A : M3) : M3 := M3.smulM (1 / A.det) A.adjugate

/-- Matrix whose columns are the given vectors. -/
def matFromCols (a b c : V3) : M3 :=
  ⟨a.x, b.x, c.x, a.y, b.y, c.y, a.z, b.z, c.z⟩

/-- Matrix built from three row tuples, modelling
`mathutils.Matrix([row0, row1, row2])`. -/
def matFromRows (r0 r1 r2 : ℝ × ℝ × ℝ) : M3 :=
  ⟨r0.1, r0.2.1, r0.2.2, r1.1, r1.2.1, r1.2.2, r2.1, r2.2.1, r2.2.2⟩

/-- Models `mathutils.Matrix.Rotation(theta, 4, 'X')` (its 3x3 linear part):
rotation about the X axis by angle `theta`. -/
noncomputable def rotXMat (θ : ℝ) : M3 :=
  ⟨1, 0, 0,
   0, Real.cos θ, -Real.sin θ,
   0, Real.sin θ, Real.cos θ⟩

/-- Affine map on 3-space: a 4x4 matrix `[[lin, tr], [0, 1]]` in
`mathutils` terms. -/
structure Aff where
  lin : M3
  tr : V3

def Aff.id : Aff := ⟨M3.id, 0⟩

def Aff.apply (f : Aff) (p : V3) : V3 := f.lin.apply p + f.tr

/-- Composition `f @ g` of 4x4 matrices (apply `g` first). -/
def Aff.comp (f g : Aff) : Aff := ⟨f.lin.mul g.lin, f.lin.apply g.tr + f.tr⟩

/-- Models `mathutils.Matrix.Translation(c)`. -/
def affTranslation (c : V3) : Aff := ⟨M3.id, c⟩

/-- Models `Matrix.to_4x4()` applied to a 3x3 rotation: zero translation. -/
def affOfLin (A : M3) : Aff := ⟨A, 0⟩

/-- Models `Matrix.inverted()` on an affine 4x4 matrix:
`(A, t)⁻¹ = (A⁻¹, -A⁻¹ t)`.  On a singular matrix mathutils raises
`ValueError`; here the adjugate formula returns junk instead, which the node
never reaches (see `frameMat_det_pos`). -/
noncomputable def Aff.inverted (f : Aff) : Aff :=
  ⟨f.lin.inv, (-1 : ℝ) • f.lin.inv.apply f.tr⟩

/-- The local rotation frame computed per cap face
(`extrude_separate.py` lines 222-229): if the normal has zero x and y
components, the identity when `z >= 0`, else a rotation of `pi` about X;
otherwise the matrix built from the zipped rows of
`x_axis = normalize((-n.y, n.x, 0))`, `y_axis = normalize(n x x_axis)` and
`z_axis = n`. -/
noncomputable def frameMat (n : V3) : M3 :=
  open Classical in
  if n.x = 0 ∧ n.y = 0 then
    (if 0 ≤ n.z then M3.id else rotXMat Real.pi)
  else
    let z_axis := n
    let x_axis := (V3.mk (z_axis.y * (-1)) z_axis.x 0).normalized
    let y_axis := (z_axis.cross x_axis).normalized
    matFromRows (x_axis.x, y_axis.x, z_axis.x)
                (x_axis.y, y_axis.y, z_axis.y)
                (x_axis.z, y_axis.z, z_axis.z)

/-- The reference frame passed to the bmesh operators
(`extrude_separate.py` lines 232-234):
`space = (Matrix.Translation(center) @ m_r).inverted()`. -/
noncomputable def faceSpace (n center : V3) : Aff :=
  ((affTranslation center).comp (affOfLin (frameMat n))).inverted

/-- Models `bmesh.ops.transform(bm, matrix=mat, space=space, verts=...)`
acting on one coordinate: the kernel applies `space⁻¹ @ mat @ space`
(it transforms the point into the given reference space, applies the
matrix, and transforms back). -/
noncomputable def bmoTransform (mat space : Aff) (p : V3) : V3 :=
  space.inverted.apply (mat.apply (space.apply p))

/-- Diagonal scale as a 4x4 matrix, the matrix `bmesh.ops.scale`
builds from its `vec` argument. -/
def diagAff (vec : V3) : Aff :=
  ⟨⟨vec.x, 0, 0, 0, vec.y, 0, 0, 0, vec.z⟩, 0⟩

/-- Models `bmesh.ops.scale(bm, vec=vec, space=space, verts=...)` on one
coordinate: a diagonal scale applied in the reference space. -/
noncomputable def bmoScale (vec : V3) (space : Aff) (p : V3) : V3 :=
  bmoTransform (diagAff vec) space p

/-- Models `bmesh.ops.translate(bm, verts=..., vec=d)` on one coordinate
(no `space` argument is passed by the node, so it is a plain addition). -/
def bmoTranslate (d p : V3) : V3 := p + d

/-- Face tag constants from `extrude_separate.py` lines 32-34:
`MASK = 0`. -/
def tagMASK : Int := 0

/-- Tag constant `OUT = 1`. -/
def tagOUT : Int := 1

/-- Tag constant `IN = 2`. -/
def tagIN : Int := 2

/-- A bmesh face as the node uses it: its vertex-index loop and the value of
the integer `'mask'` layer (the classification tag). -/
structure BFace where
  loop : List Nat
  tag : Int
  deriving DecidableEq

/-- The mutable mesh: vertex coordinates indexed contiguously from 0, plus
the face list.  Edges are carried by the real bmesh but no claim concerns
them, so they are not tracked. -/
structure BMesh where
  verts : List V3
  faces : List BFace

/-- The node's `extrude_mode` enum (`NORMAL`/`MATRIX`). -/
inductive ExMode where
  | NORMAL
  | MATRIX
  deriving DecidableEq

/-- The node's `mask_mode` enum (`NOEXTRUDE`/`NOTRANSFORM`). -/
inductive MkMode where
  | NOEXTRUDE
  | NOTRANSFORM
  deriving DecidableEq

/-- The `mask_out_type` multi-select: which of the tag names
`{mask, out, in}` are enabled. -/
structure MaskOutType where
  hasMask : Bool
  hasOut : Bool
  hasIn : Bool
  deriving DecidableEq

/-- A value arriving on the Scale input: a plain float, or a 3-vector when
the socket is connected to a vector-valued source. -/
inductive ScaleV where
  | flo (s : ℝ)
  | vec (v : V3)

/-- The `vec = scale if vector_in else (scale, scale, scale)` step
(line 219).  `none` models the type error the untyped Python code would hit
downstream if the value's shape does not match `vector_in`. -/
def scaleVec : Bool → ScaleV → Option V3
  | false, .flo s => some ⟨s, s, s⟩
  | true, .vec v => some v
  | _, _ => none

/-- Modelled from the spec: the kernel-computed unit face `normal`
(a derived attribute of `Face` in the data model) — the polygon's area
vector by Newell's method, normalized. -/
def cyclicCrossSum (p0 : V3) : List V3 → V3
  | [] => 0
  | [q] => q.cross p0
  | q :: r :: rest => q.cross r + cyclicCrossSum p0 (r :: rest)

/-- Sum of successive cross products around the polygon (Newell's method,
up to the constant factor that normalization cancels). -/
def polyAreaVec (pts : List V3) : V3 :=
  match pts with
  | [] => 0
  | p0 :: _ => cyclicCrossSum p0 pts

/-- Position list lookup with the zero vector as default. -/
def vget (verts : List V3) (i : Nat) : V3 := verts.getD i 0

/-- Modelled from the spec: `face.normal`, the unit normal derived from the
face's current vertex positions. -/
noncomputable def faceNormal (verts : List V3) (loop : List Nat) : V3 :=
  (polyAreaVec (loop.map (vget verts))).normalized

/-- Modelled from the spec: `face.calc_center_median()`, the vertex-median
centroid of the face. -/
noncomputable def faceCenter (verts : List V3) (loop : List Nat) : V3 :=
  (1 / (loop.length : ℝ)) • (loop.map (vget verts)).foldr (· + ·) 0

/-- The transform applied to one cap face's coordinates
(`extrude_separate.py` lines 217-241), given the face's normal `n` and
center `c` read before any mutation: in `NORMAL` mode a diagonal scale in
the local `space` followed by a translation along `n * height`; in `MATRIX`
mode the supplied matrix applied in the local `space`. -/
noncomputable def capMap (em : ExMode) (vectorIn : Bool) (height : ℝ)
    (scale : ScaleV) (matrix : Aff) (n c : V3) : Option (V3 → V3) :=
  let space := faceSpace n c
  let dr := height • n
  match em with
  | .NORMAL =>
    (scaleVec vectorIn scale).map fun vec =>
      fun p => bmoTranslate dr (bmoScale vec space p)
  | .MATRIX => some (fun p => bmoTransform matrix space p)

/-- Vertex-index loop of the cap created for a face whose new ring starts at
index `base` and has `m` vertices. -/
def capLoop (base m : Nat) : List Nat := (List.range m).map (base + ·)

/-- Side (bridge) faces connecting one old boundary edge to the
corresponding new ring edge; they copy the original face's layer data
(bmesh creates them with the original face as attribute example). -/
def sideFacesOf (base : Nat) (f : BFace) : List BFace :=
  (List.range f.loop.length).map fun j =>
    ⟨[f.loop.getD j 0, f.loop.getD ((j + 1) % f.loop.length) 0,
      base + (j + 1) % f.loop.length, base + j], f.tag⟩

/-- Core of the discrete-extrude model: processes the selected faces in
order, appending for each a duplicate ring of new vertices and returning
the accumulated vertex list, the side faces and the cap faces (caps carry
the original face's layer data). -/
def extrudeAll (verts : List V3) : List BFace → List V3 × List BFace × List BFace
  | [] => (verts, [], [])
  | f :: rest =>
    let base := verts.length
    let newVs := f.loop.map (vget verts)
    let cap : BFace := ⟨capLoop base f.loop.length, f.tag⟩
    let r := extrudeAll (verts ++ newVs) rest
    (r.1, sideFacesOf base f ++ r.2.1, cap :: r.2.2)

/-- Modelled from the spec (§4.3): `bmesh.ops.extrude_discrete_faces` — each
selected face (given by its index into `bm.faces`) is replaced by a fresh
duplicate ring of vertices, side faces bridging old boundary to new ring,
and a cap face over the new ring; unselected faces pass through untouched.
Returns the new mesh (unselected faces first, then all side faces, then the
caps) and the list of cap faces in selection order, the op's `['faces']`
result. -/
def extrudeDiscreteFaces (bm : BMesh) (sel : List Nat) : BMesh × List BFace :=
  let selFaces := sel.map fun i => bm.faces.getD i ⟨[], tagOUT⟩
  let kept := (bm.faces.enum.filter fun p => decide (p.1 ∉ sel)).map Prod.snd
  let r := extrudeAll bm.verts selFaces
  (⟨r.1, kept ++ r.2.1 ++ r.2.2⟩, r.2.2)

/-- Positions (indices into the final face list) of the cap faces: in this
model the caps occupy the last `caps.length` slots. -/
def capIdxsOf (bm2 : BMesh) (caps : List BFace) : List Nat :=
  (List.range caps.length).map (bm2.faces.length - caps.length + ·)

/-- Modelled from the spec: sverchok's `fullList(l, count)` broadcast
helper — extends the list to `count` entries by repeating its last element;
`none` models the index error raised on an empty list that must grow. -/
def fullList {α : Type} (l : List α) (count : Nat) : Option (List α) :=
  if count ≤ l.length then some l
  else
    match l.getLast? with
    | none => none
    | some a => some (l ++ List.replicate (count - l.length) a)

/-- Modelled from the spec (§4.1): `bmesh_from_pydata` — builds the mesh
with vertices in input order and faces referencing them, failing when a
face references an out-of-range vertex index.  Input edges are accepted by
the real helper but tracked by no claim, so they are not modelled. -/
def bmeshFromPydata (vertices : List V3) (faces : List (List Nat)) :
    Option BMesh :=
  if faces.all fun l => l.all (· < vertices.length) then
    some ⟨vertices, faces.map fun l => ⟨l, tagOUT⟩⟩
  else none

/-- Modelled from the spec (§4.2): `fill_faces_layer(bm, masks, 'mask', int,
OUT)` — writes each face's resolved mask value into the `'mask'` layer,
defaulting to `OUT` where the mask list is short. -/
def fillFacesLayer (bm : BMesh) (ms : List Int) : BMesh :=
  ⟨bm.verts, bm.faces.mapIdx fun i f => ⟨f.loop, ms.getD i tagOUT⟩⟩

/-- Modelled from the spec (§4.6): `pydata_from_bmesh` — flattens the final
mesh's faces back to vertex-index loops in mesh order (vertex indices are
already contiguous in this model). -/
def pydataFaces (bm : BMesh) : List (List Nat) := bm.faces.map BFace.loop

/-- The faces handed to the extrude operator (`extrude_separate.py` lines
205-208), as indices into `bm.faces`: in `NOEXTRUDE` mode
`[face for face, mask in zip(bm.faces, masks) if mask]`, in `NOTRANSFORM`
mode all of `bm.faces`. -/
def selectionOf (mm : MkMode) (faces : List BFace) (ms : List Int) :
    List Nat :=
  match mm with
  | .NOEXTRUDE =>
    ((List.range faces.length).zip ms).filterMap fun p =>
      if p.2 ≠ 0 then some p.1 else none
  | .NOTRANSFORM => List.range faces.length

/-- One entry of the per-face transform data: `(face, height, scale,
matrix)`. -/
abbrev FaceDatum := BFace × ℝ × ScaleV × Aff

/-- The `face_data` list (`extrude_separate.py` lines 212-215): in
`NOEXTRUDE` mode `zip(extruded_faces, heights, scales, matrixes)`; in
`NOTRANSFORM` mode the same zip extended with `masks`, keeping only entries
whose mask is truthy. -/
def faceDataOf (mm : MkMode) (caps : List BFace) (ms : List Int)
    (hs : List ℝ) (ss : List ScaleV) (xs : List Aff) : List FaceDatum :=
  match mm with
  | .NOEXTRUDE => caps.zip (hs.zip (ss.zip xs))
  | .NOTRANSFORM =>
    (caps.zip (ms.zip (hs.zip (ss.zip xs)))).filterMap fun t =>
      if t.2.1 ≠ 0 then some (t.1, t.2.2) else none

def applyCapMapAux (loop : List Nat) (φ : V3 → V3) (i : Nat) :
    List V3 → List V3
  | [] => []
  | p :: ps =>
    (if i ∈ loop then φ p else p) :: applyCapMapAux loop φ (i + 1) ps

/-- Applies a coordinate transform to exactly the vertices of one face's
loop, as the bmesh operators do when given `verts=face.verts`. -/
def applyCapMap (verts : List V3) (loop : List Nat) (φ : V3 → V3) :
    List V3 :=
  applyCapMapAux loop φ 0 verts

/-- The transform loop (`extrude_separate.py` lines 217-241): for each
`face_data` entry in order, reads the face's current normal and center,
builds the per-face map and applies it to that face's vertices.  `none`
models a Python error inside the loop. -/
noncomputable def applyTransforms (em : ExMode) (vectorIn : Bool) :
    List V3 → List FaceDatum → Option (List V3)
  | verts, [] => some verts
  | verts, (f, h, s, x) :: rest =>
    let n := faceNormal verts f.loop
    let c := faceCenter verts f.loop
    match capMap em vectorIn h s x n c with
    | none => none
    | some φ => applyTransforms em vectorIn (applyCapMap verts f.loop φ) rest

/-- The dictionary `MASK_MEANING = {MASK: 'mask', OUT: 'out', IN: 'in'}`;
`none` models the `KeyError` on any other tag value. -/
def maskMeaning (t : Int) : Option (MaskOutType → Bool) :=
  if t = tagMASK then some MaskOutType.hasMask
  else if t = tagOUT then some MaskOutType.hasOut
  else if t = tagIN then some MaskOutType.hasIn
  else none

/-- The list comprehension in `get_out_mask` (line 148): maps each face tag
through `MASK_MEANING` and tests membership in the `mask_out_type` set. -/
def tagsToMask (mot : MaskOutType) : List Int → Option (List Int)
  | [] => some []
  | t :: ts =>
    match maskMeaning t with
    | none => none
    | some sel =>
      (tagsToMask mot ts).map fun rest =>
        (if sel mot then (1 : Int) else 0) :: rest

/-- `SvExtrudeSeparateNode.get_out_mask` (lines 144-149): overwrites the
tag of every face returned by the extrude op (given here by position) with
`IN`, then emits `int(MASK_MEANING[tag] in mask_out_type)` per face. -/
def getOutMask (mot : MaskOutType) (faces : List BFace)
    (capIdxs : List Nat) : Option (List Int) :=
  tagsToMask mot
    (faces.mapIdx fun k f => if k ∈ capIdxs then tagIN else f.tag)

/-- Everything the per-item loop body appends to the result lists for one
batch item. -/
structure ItemResult where
  vertices : List V3
  faces : List (List Nat)
  extruded : List (List Nat)
  other : List (List Nat)
  maskOut : Option (List Int)

/-- The output sockets' `is_linked` flags. -/
structure OutLinks where
  vertices : Bool
  edges : Bool
  polygons : Bool
  extrudedPolys : Bool
  otherPolys : Bool
  mask : Bool

/-- The node's per-instance configuration. -/
structure NodeCfg where
  extrudeMode : ExMode
  maskMode : MkMode
  maskOutType : MaskOutType

/-- Body of the per-item loop after the broadcast and mesh-build steps
(`extrude_separate.py` lines 200-259): tag the faces with the resolved
mask, select and extrude, transform the selected `face_data` entries,
record cap loops when the face outputs are consumed, filter the other
faces, and compute the output mask when consumed. -/
noncomputable def processCore (cfg : NodeCfg) (vectorIn : Bool)
    (links : OutLinks) (bm : BMesh) (ms : List Int) (hs : List ℝ)
    (ss : List ScaleV) (xs : List Aff) : Option ItemResult :=
  let bm1 := fillFacesLayer bm ms
  let sel := selectionOf cfg.maskMode bm1.faces ms
  let er := extrudeDiscreteFaces bm1 sel
  let fd := faceDataOf cfg.maskMode er.2 ms hs ss xs
  (applyTransforms cfg.extrudeMode vectorIn er.1.verts fd).bind fun verts2 =>
    let recorded :=
      if links.extrudedPolys || links.otherPolys then
        fd.map fun t => t.1.loop
      else []
    let newFaces := pydataFaces er.1
    let other :=
      if links.otherPolys then
        newFaces.filter fun (l : List Nat) =>
          !(decide (l ∈ (recorded : List (List Nat))))
      else []
    if links.mask then
      (getOutMask cfg.maskOutType er.1.faces (capIdxsOf er.1 er.2)).bind
        fun om => some ⟨verts2, newFaces, recorded, other, some om⟩
    else some ⟨verts2, newFaces, recorded, other, none⟩

/-- One iteration of the batch loop (`extrude_separate.py` lines 191-259):
broadcast the per-face parameter lists to the input face count with
`fullList`, build the mesh, and run the core. -/
noncomputable def processItem (cfg : NodeCfg) (vectorIn : Bool)
    (links : OutLinks) (vertices : List V3) (faces : List (List Nat))
    (ms0 : List Int) (hs0 : List ℝ) (ss0 : List ScaleV) (xs0 : List Aff) :
    Option ItemResult :=
  (fullList hs0 faces.length).bind fun hs =>
  (fullList ss0 faces.length).bind fun ss =>
  (fullList xs0 faces.length).bind fun xs =>
  (fullList ms0 faces.length).bind fun ms =>
  (bmeshFromPydata vertices faces).bind fun bm =>
  processCore cfg vectorIn links bm ms hs ss xs

/-- The input side of the node: the `is_linked` state of the required and
optional sockets and the batch data each would deliver through `sv_get`.
Edge data is accepted by the node but used by no claim. -/
structure NodeInputs where
  verticesLinked : Bool
  polygonsLinked : Bool
  maskLinked : Bool
  vertices : List (List V3)
  polygons : List (List (List Nat))
  masks : List (List Int)
  heights : List (List ℝ)
  scales : List (List ScaleV)
  matrixes : List (List Aff)

/-- Whether any output socket is linked. -/
def OutLinks.anyLinked (o : OutLinks) : Bool :=
  o.vertices || o.edges || o.polygons || o.extrudedPolys || o.otherPolys
    || o.mask

/-- Result of one `process` call: an early silent return, a Python
exception, or the per-item results that get written to the outputs. -/
inductive ProcResult where
  | skipped
  | failed
  | ok (items : List ItemResult)

/-- Modelled from the spec (§3 Batch): sverchok's `match_long_repeat` —
every input sequence is extended to the longest length by repeating its
last element; `none` models the error on an empty sequence that must
grow. -/
def matchLongRepeat (vs : List (List V3)) (fs : List (List (List Nat)))
    (ms : List (List Int)) (hs : List (List ℝ)) (ss : List (List ScaleV))
    (xs : List (List Aff)) :
    Option (List (List V3 × List (List Nat) × List Int × List ℝ ×
      List ScaleV × List Aff)) :=
  let n := [vs.length, fs.length, ms.length, hs.length, ss.length,
    xs.length].foldr max 0
  (fullList vs n).bind fun vs' =>
  (fullList fs n).bind fun fs' =>
  (fullList ms n).bind fun ms' =>
  (fullList hs n).bind fun hs' =>
  (fullList ss n).bind fun ss' =>
  (fullList xs n).bind fun xs' =>
  some (vs'.zip (fs'.zip (ms'.zip (hs'.zip (ss'.zip xs')))))

/-- `SvExtrudeSeparateNode.process` (lines 151-267): returns silently
unless both required inputs are linked and some output is linked; then
resolves defaults (`Mask` defaults to `[[1]]`, `Matrix` to the identity),
matches the batch lists and runs the per-item loop. -/
noncomputable def process (cfg : NodeCfg) (vectorIn : Bool)
    (ins : NodeInputs) (outs : OutLinks) : ProcResult :=
  if !(ins.verticesLinked && ins.polygonsLinked) then .skipped
  else if !outs.anyLinked then .skipped
  else
    let masksS := if ins.maskLinked then ins.masks else [[1]]
    match matchLongRepeat ins.vertices ins.polygons masksS ins.heights
      ins.scales ins.matrixes with
    | none => .failed
    | some items =>
      match items.mapM (fun t =>
          processItem cfg vectorIn outs t.1 t.2.1 t.2.2.1 t.2.2.2.1
            t.2.2.2.2.1 t.2.2.2.2.2) with
      | none => .failed
      | some rs => .ok rs

theorem V3.coords_ext {a b : V3} (hx : a.x = b.x) (hy : a.y = b.y)
    (hz : a.z = b.z) : a = b := by
  cases a; cases b; simp_all

theorem V3.add_def (a b : V3) :
    a + b = ⟨a.x + b.x, a.y + b.y, a.z + b.z⟩ := rfl

theorem V3.smul_def (r : ℝ) (v : V3) :
    r • v = ⟨r * v.x, r * v.y, r * v.z⟩ := rfl

theorem V3.zero_def : (0 : V3) = ⟨0, 0, 0⟩ := rfl

theorem M3.mul_id (A : M3) : A.mul M3.id = A := by
  apply M3.entries_ext <;> simp [M3.mul, M3.id]

theorem M3.id_mul (A : M3) : M3.id.mul A = A := by
  apply M3.entries_ext <;> simp [M3.mul, M3.id]

theorem M3.det_id : M3.id.det = 1 := by
  simp [M3.det, M3.id]

theorem M3.det_mul (A B : M3) : (A.mul B).det = A.det * B.det := by
  simp only [M3.det, M3.mul]; ring

theorem M3.inv_mul {A : M3} (h : A.det ≠ 0) : A.inv.mul A = M3.id := by
  have hd : A.m00 * (A.m11 * A.m22 - A.m12 * A.m21)
      - A.m01 * (A.m10 * A.m22 - A.m12 * A.m20)
      + A.m02 * (A.m10 * A.m21 - A.m11 * A.m20) ≠ 0 := by
    simpa [M3.det] using h
  apply M3.entries_ext <;>
    simp only [M3.inv, M3.mul, M3.adjugate, M3.smulM, M3.id, M3.det] <;>
    field_simp <;> ring

theorem M3.mul_inv {A : M3} (h : A.det ≠ 0) : A.mul A.inv = M3.id := by
  have hd : A.m00 * (A.m11 * A.m22 - A.m12 * A.m21)
      - A.m01 * (A.m10 * A.m22 - A.m12 * A.m20)
      + A.m02 * (A.m10 * A.m21 - A.m11 * A.m20) ≠ 0 := by
    simpa [M3.det] using h
  apply M3.entries_ext <;>
    simp only [M3.inv, M3.mul, M3.adjugate, M3.smulM, M3.id, M3.det] <;>
    field_simp <;> ring

theorem M3.mul_assoc3 (A B C : M3) : (A.mul B).mul C = A.mul (B.mul C) := by
  apply M3.entries_ext <;> simp only [M3.mul] <;> ring

theorem M3.det_inv_mul_self {A : M3} (h : A.det ≠ 0) :
    A.inv.det * A.det = 1 := by
  have := congrArg M3.det (M3.inv_mul h)
  rwa [M3.det_mul, M3.det_id] at this

theorem M3.inv_det_ne {A : M3} (h : A.det ≠ 0) : A.inv.det ≠ 0 := by
  intro h0
  have := M3.det_inv_mul_self h
  rw [h0] at this
  simp at this

theorem M3.inv_inv {A : M3} (h : A.det ≠ 0) : A.inv.inv = A := calc
  A.inv.inv = A.inv.inv.mul (A.inv.mul A) := by rw [M3.inv_mul h, M3.mul_id]
  _ = (A.inv.inv.mul A.inv).mul A := by rw [M3.mul_assoc3]
  _ = A := by rw [M3.inv_mul (M3.inv_det_ne h), M3.id_mul]

theorem M3.apply_mul (A B : M3) (v : V3) :
    (A.mul B).apply v = A.apply (B.apply v) := by
  apply V3.coords_ext <;> simp only [M3.apply, M3.mul] <;> ring

theorem M3.id_apply (v : V3) : M3.id.apply v = v := by
  apply V3.coords_ext <;> simp [M3.apply, M3.id]

theorem Aff.inverted_apply_apply {f : Aff} (h : f.lin.det ≠ 0) (p : V3) :
    f.inverted.apply (f.apply p) = p := by
  have hd : f.lin.m00 * (f.lin.m11 * f.lin.m22 - f.lin.m12 * f.lin.m21)
      - f.lin.m01 * (f.lin.m10 * f.lin.m22 - f.lin.m12 * f.lin.m20)
      + f.lin.m02 * (f.lin.m10 * f.lin.m21 - f.lin.m11 * f.lin.m20) ≠ 0 := by
    simpa [M3.det] using h
  apply V3.coords_ext <;>
    simp only [Aff.inverted, Aff.apply, M3.inv, M3.apply, M3.adjugate,
      M3.smulM, M3.det, V3.add_def, V3.smul_def] <;>
    field_simp <;> ring

theorem V3.len_nonneg (v : V3) : 0 ≤ v.len := Real.sqrt_nonneg _

theorem V3.len_pos {v : V3} (h : 0 < v.sqnorm) : 0 < v.len :=
  Real.sqrt_pos.mpr h

theorem V3.cross_smul_right (a : V3) (r : ℝ) (b : V3) :
    a.cross (r • b) = r • a.cross b := by
  apply V3.coords_ext <;> simp only [V3.cross, V3.smul_def] <;> ring

theorem V3.smul_dot (r : ℝ) (a b : V3) : (r • a).dot b = r * a.dot b := by
  simp only [V3.dot, V3.smul_def]; ring

theorem det_cols_cyc (a b c : V3) :
    (matFromCols a b c).det = b.dot (c.cross a) := by
  simp only [matFromCols, M3.det, V3.dot, V3.cross]; ring

theorem rotXMat_pi_eq : rotXMat Real.pi = ⟨1, 0, 0, 0, -1, 0, 0, 0, -1⟩ := by
  simp [rotXMat, Real.cos_pi, Real.sin_pi]

theorem frameMat_degen_pos {n : V3} (hx : n.x = 0) (hy : n.y = 0)
    (hz : 0 ≤ n.z) : frameMat n = M3.id := by
  unfold frameMat
  rw [if_pos ⟨hx, hy⟩, if_pos hz]

theorem frameMat_degen_neg {n : V3} (hx : n.x = 0) (hy : n.y = 0)
    (hz : n.z < 0) : frameMat n = rotXMat Real.pi := by
  unfold frameMat
  rw [if_pos ⟨hx, hy⟩, if_neg (not_le.mpr hz)]

theorem frameMat_nondegen {n : V3} (h : ¬(n.x = 0 ∧ n.y = 0)) :
    frameMat n =
      matFromCols ((V3.mk (n.y * (-1)) n.x 0).normalized)
        ((n.cross ((V3.mk (n.y * (-1)) n.x 0).normalized)).normalized) n := by
  unfold frameMat
  rw [if_neg h]
  rfl

theorem nondegen_sumsq_pos {n : V3} (h : ¬(n.x = 0 ∧ n.y = 0)) :
    0 < n.x * n.x + n.y * n.y := by
  rcases not_and_or.mp h with hx | hy
  · nlinarith [mul_self_nonneg n.y, mul_self_pos.mpr hx]
  · nlinarith [mul_self_nonneg n.x, mul_self_pos.mpr hy]

theorem wvec_sqnorm (n : V3) :
    (V3.mk (n.y * (-1)) n.x 0).sqnorm = n.x * n.x + n.y * n.y := by
  simp only [V3.sqnorm, V3.dot]; ring

theorem frameMat_det_pos (n : V3) : 0 < (frameMat n).det := by
  by_cases h : n.x = 0 ∧ n.y = 0
  · by_cases hz : 0 ≤ n.z
    · rw [frameMat_degen_pos h.1 h.2 hz, M3.det_id]; norm_num
    · rw [frameMat_degen_neg h.1 h.2 (not_le.mp hz), rotXMat_pi_eq]
      simp [M3.det]
  · rw [frameMat_nondegen h]
    have hw : 0 < (V3.mk (n.y * (-1)) n.x 0).sqnorm := by
      rw [wvec_sqnorm]; exact nondegen_sumsq_pos h
    have hlw : 0 < (V3.mk (n.y * (-1)) n.x 0).len := V3.len_pos hw
    have hcr : n.cross ((V3.mk (n.y * (-1)) n.x 0).normalized)
        = (1 / (V3.mk (n.y * (-1)) n.x 0).len) •
          n.cross (V3.mk (n.y * (-1)) n.x 0) := by
      rw [V3.normalized, V3.cross_smul_right]
    have hcz : (n.cross (V3.mk (n.y * (-1)) n.x 0)).z
        = n.x * n.x + n.y * n.y := by
      simp only [V3.cross]; ring
    have huz : (n.cross ((V3.mk (n.y * (-1)) n.x 0).normalized)).z
        = (1 / (V3.mk (n.y * (-1)) n.x 0).len) * (n.x * n.x + n.y * n.y) := by
      rw [hcr, V3.smul_def, hcz]
    have huzpos : 0 < (n.cross ((V3.mk (n.y * (-1)) n.x 0).normalized)).z := by
      rw [huz]
      exact mul_pos (by positivity) (nondegen_sumsq_pos h)
    have husq : 0 < (n.cross ((V3.mk (n.y * (-1)) n.x 0).normalized)).sqnorm := by
      simp only [V3.sqnorm, V3.dot]
      nlinarith [mul_self_nonneg (n.cross ((V3.mk (n.y * (-1)) n.x 0).normalized)).x,
        mul_self_nonneg (n.cross ((V3.mk (n.y * (-1)) n.x 0).normalized)).y]
    have hlu : 0 < (n.cross ((V3.mk (n.y * (-1)) n.x 0).normalized)).len :=
      V3.len_pos husq
    rw [det_cols_cyc, V3.normalized, V3.smul_dot]
    exact mul_pos (by positivity) husq

/-- C2: for every cap face, when the face normal has `x = 0` and `y = 0`
the rotation frame is the identity for `z >= 0` and the 180-degree rotation
about X (the matrix `diag(1, -1, -1)`) otherwise; for every other normal the
frame's columns are local X = `normalize((-n.y, n.x, 0))`,
local Y = `normalize(n x X)` and local Z = the normal itself; and the
reference frame passed to the bmesh operators is
`space = inverse(Translation(center) @ Rotation(frame))`. -/
theorem c2_local_frame (n c : V3) :
    (n.x = 0 ∧ n.y = 0 →
      frameMat n = if 0 ≤ n.z then M3.id else rotXMat Real.pi) ∧
    (¬(n.x = 0 ∧ n.y = 0) →
      frameMat n =
        matFromCols ((V3.mk (-n.y) n.x 0).normalized)
          ((n.cross ((V3.mk (-n.y) n.x 0).normalized)).normalized) n) ∧
    rotXMat Real.pi = ⟨1, 0, 0, 0, -1, 0, 0, 0, -1⟩ ∧
    faceSpace n c = ((affTranslation c).comp (affOfLin (frameMat n))).inverted := by
  refine ⟨?_, ?_, rotXMat_pi_eq, rfl⟩
  · rintro ⟨hx, hy⟩
    by_cases hz : 0 ≤ n.z
    · rw [frameMat_degen_pos hx hy hz, if_pos hz]
    · rw [frameMat_degen_neg hx hy (not_le.mp hz), if_neg hz]
  · intro h
    have hv : V3.mk (n.y * (-1)) n.x 0 = V3.mk (-n.y) n.x 0 := by
      norm_num
    rw [frameMat_nondegen h, hv]

/-- C2 witness: at the normal `(0, 0, 1)` the degenerate branch applies and
the space matrix has the stated shape. -/
theorem c2_local_frame_witness :
    frameMat ⟨0, 0, 1⟩ = (if (0 : ℝ) ≤ 1 then M3.id else rotXMat Real.pi) ∧
    faceSpace ⟨0, 0, 1⟩ 0 =
      ((affTranslation 0).comp (affOfLin (frameMat ⟨0, 0, 1⟩))).inverted :=
  ⟨(c2_local_frame ⟨0, 0, 1⟩ 0).1 ⟨rfl, rfl⟩,
   (c2_local_frame ⟨0, 0, 1⟩ 0).2.2.2⟩

/-- C10: the local-frame construction is total — whenever the
non-degenerate branch is taken (`n.x ≠ 0` or `n.y ≠ 0`) the vector
`(-n.y, n.x, 0)` is nonzero and has strictly positive length, so its
normalization never divides by zero; and every normal with `x = 0` and
`y = 0` (including the zero normal of a fully degenerate face) takes the
guarded branch, giving the identity for `z >= 0` and the 180-degree X
rotation otherwise. -/
theorem c10_frame_total (n : V3) :
    (¬(n.x = 0 ∧ n.y = 0) →
      (V3.mk (n.y * (-1)) n.x 0) ≠ 0 ∧
      0 < (V3.mk (n.y * (-1)) n.x 0).len) ∧
    (n.x = 0 ∧ n.y = 0 →
      frameMat n = if 0 ≤ n.z then M3.id else rotXMat Real.pi) := by
  constructor
  · intro h
    have hw : 0 < (V3.mk (n.y * (-1)) n.x 0).sqnorm := by
      rw [wvec_sqnorm]; exact nondegen_sumsq_pos h
    refine ⟨?_, V3.len_pos hw⟩
    intro h0
    rw [V3.zero_def, V3.mk.injEq] at h0
    exact h ⟨h0.2.1, by nlinarith [h0.1]⟩
  · rintro ⟨hx, hy⟩
    by_cases hz : 0 ≤ n.z
    · rw [frameMat_degen_pos hx hy hz, if_pos hz]
    · rw [frameMat_degen_neg hx hy (not_le.mp hz), if_neg hz]

/-- C10 witness: the normal `(1, 0, 0)` takes the non-degenerate branch
with a nonzero perpendicular, and the normal `(0, 0, -1)` takes the guarded
branch. -/
theorem c10_frame_total_witness :
    ((V3.mk ((0 : ℝ) * (-1)) 1 0) ≠ 0 ∧
      0 < (V3.mk ((0 : ℝ) * (-1)) 1 0).len) ∧
    frameMat ⟨0, 0, -1⟩ =
      (if (0 : ℝ) ≤ -1 then M3.id else rotXMat Real.pi) :=
  ⟨(c10_frame_total ⟨1, 0, 0⟩).1 (by norm_num),
   (c10_frame_total ⟨0, 0, -1⟩).2 ⟨rfl, rfl⟩⟩

theorem faceSpace_lin_det_ne (n c : V3) : (faceSpace n c).lin.det ≠ 0 := by
  have h1 : (faceSpace n c).lin = (M3.id.mul (frameMat n)).inv := rfl
  rw [h1, M3.id_mul]
  exact M3.inv_det_ne (ne_of_gt (frameMat_det_pos n))

theorem diagAff_one_apply (q : V3) : (diagAff ⟨1, 1, 1⟩).apply q = q := by
  apply V3.coords_ext <;>
    simp [diagAff, Aff.apply, M3.apply, V3.add_def, V3.zero_def]

theorem bmoScale_one (n c p : V3) :
    bmoScale ⟨1, 1, 1⟩ (faceSpace n c) p = p := by
  unfold bmoScale bmoTransform
  rw [diagAff_one_apply, Aff.inverted_apply_apply (faceSpace_lin_det_ne n c)]

theorem bmoTranslate_zero (n q : V3) : bmoTranslate ((0 : ℝ) • n) q = q := by
  apply V3.coords_ext <;> simp [bmoTranslate, V3.add_def, V3.smul_def]

theorem applyCapMapAux_id {φ : V3 → V3} (hφ : ∀ p, φ p = p)
    (loop : List Nat) : ∀ (i : Nat) (vs : List V3),
    applyCapMapAux loop φ i vs = vs := by
  intro i vs
  induction vs generalizing i with
  | nil => rfl
  | cons p ps ih =>
    simp only [applyCapMapAux, ih]
    by_cases h : i ∈ loop <;> simp [h, hφ]

theorem applyCapMap_id {φ : V3 → V3} (hφ : ∀ p, φ p = p)
    (verts : List V3) (loop : List Nat) :
    applyCapMap verts loop φ = verts := applyCapMapAux_id hφ loop 0 verts

theorem extrudeAll_verts_ext (fs : List BFace) :
    ∀ verts : List V3, ∃ ext, (extrudeAll verts fs).1 = verts ++ ext := by
  induction fs with
  | nil => intro verts; exact ⟨[], by simp [extrudeAll]⟩
  | cons f rest ih =>
    intro verts
    obtain ⟨ext', hext⟩ := ih (verts ++ f.loop.map (vget verts))
    exact ⟨f.loop.map (vget verts) ++ ext', by
      simp only [extrudeAll, hext, List.append_assoc]⟩

theorem extrudeAll_vget_lt (fs : List BFace) (verts : List V3) (i : Nat)
    (h : i < verts.length) :
    vget (extrudeAll verts fs).1 i = vget verts i := by
  obtain ⟨ext, hext⟩ := extrudeAll_verts_ext fs verts
  rw [hext]
  exact List.getD_append _ _ _ _ h

theorem extrudeAll_caps_ge (fs : List BFace) :
    ∀ (verts : List V3), ∀ cap ∈ (extrudeAll verts fs).2.2,
      ∀ j ∈ cap.loop, verts.length ≤ j := by
  induction fs with
  | nil => intro verts cap hcap; simp [extrudeAll] at hcap
  | cons f rest ih =>
    intro verts cap hcap j hj
    simp only [extrudeAll, List.mem_cons] at hcap
    rcases hcap with hcap | hcap
    · subst hcap
      simp only [capLoop, List.mem_map, List.mem_range] at hj
      obtain ⟨k, _, hk⟩ := hj
      omega
    · have := ih (verts ++ f.loop.map (vget verts)) cap hcap j hj
      simp only [List.length_append] at this
      omega
theorem extrudeAll_caps_count (fs : List BFace) :
    ∀ verts : List V3, (extrudeAll verts fs).2.2.length = fs.length := by
  induction fs with
  | nil => intro verts; rfl
  | cons f rest ih =>
    intro verts
    simp only [extrudeAll, List.length_cons, ih]

theorem extrudeAll_caps_len (fs : List BFace) :
    ∀ (verts : List V3) (k : Nat), k < fs.length →
      ((extrudeAll verts fs).2.2.getD k ⟨[], 0⟩).loop.length
        = (fs.getD k ⟨[], 0⟩).loop.length := by
  induction fs with
  | nil => intro verts k hk; simp at hk
  | cons f rest ih =>
    intro verts k hk
    cases k with
    | zero => simp [extrudeAll, capLoop]
    | succ k' =>
      simp only [extrudeAll, List.getD_cons_succ]
      exact ih _ k' (by simpa using hk)

theorem extrudeAll_cap_copy (fs : List BFace) :
    ∀ (verts : List V3),
      (∀ f ∈ fs, ∀ i ∈ f.loop, i < verts.length) →
      ∀ k, k < fs.length →
      ∀ j, j < ((extrudeAll verts fs).2.2.getD k ⟨[], 0⟩).loop.length →
      vget (extrudeAll verts fs).1
          (((extrudeAll verts fs).2.2.getD k ⟨[], 0⟩).loop.getD j 0)
        = vget verts ((fs.getD k ⟨[], 0⟩).loop.getD j 0) := by
  induction fs with
  | nil => intro verts _ k hk; simp at hk
  | cons f rest ih =>
    intro verts hval k hk j hj
    cases k with
    | zero =>
      have hm : ((extrudeAll verts (f :: rest)).2.2.getD 0 ⟨[], 0⟩).loop.length
          = f.loop.length := by
        simp [extrudeAll, capLoop]
      rw [hm] at hj
      have hcap : ((extrudeAll verts (f :: rest)).2.2.getD 0 ⟨[], 0⟩).loop.getD j 0
          = verts.length + j := by
        simp only [extrudeAll, List.getD_cons_zero, capLoop]
        rw [List.getD_eq_getElem _ _ (by simpa using hj)]
        simp
      rw [hcap]
      have h1 : (extrudeAll verts (f :: rest)).1
          = (extrudeAll (verts ++ f.loop.map (vget verts)) rest).1 := rfl
      rw [h1]
      have hlt : verts.length + j
          < (verts ++ f.loop.map (vget verts)).length := by
        simp only [List.length_append, List.length_map]
        omega
      rw [extrudeAll_vget_lt rest _ _ hlt]
      unfold vget
      rw [List.getD_append_right _ _ _ _ (Nat.le_add_right _ _)]
      simp only [Nat.add_sub_cancel_left]
      rw [List.getD_eq_getElem _ _ (by simpa using hj), List.getElem_map,
        List.getD_cons_zero, List.getD_eq_getElem _ _ hj]
    | succ k' =>
      have hk' : k' < rest.length := by simpa using hk
      have hcs : (extrudeAll verts (f :: rest)).2.2.getD (k' + 1) ⟨[], 0⟩
          = (extrudeAll (verts ++ f.loop.map (vget verts)) rest).2.2.getD k'
              ⟨[], 0⟩ := by
        simp [extrudeAll]
      rw [hcs] at hj ⊢
      have h1 : (extrudeAll verts (f :: rest)).1
          = (extrudeAll (verts ++ f.loop.map (vget verts)) rest).1 := rfl
      rw [h1]
      have hval' : ∀ g ∈ rest, ∀ i ∈ g.loop,
          i < (verts ++ f.loop.map (vget verts)).length := by
        intro g hg i hi
        have := hval g (List.mem_cons_of_mem f hg) i hi
        simp only [List.length_append]
        omega
      rw [ih _ hval' k' hk' j hj]
      have hjlen : j < (rest.getD k' ⟨[], 0⟩).loop.length := by
        rw [← extrudeAll_caps_len rest (verts ++ f.loop.map (vget verts)) k' hk']
        exact hj
      have hmem : (rest.getD k' ⟨[], 0⟩).loop.getD j 0 ∈
          (rest.getD k' ⟨[], 0⟩).loop := by
        rw [List.getD_eq_getElem _ _ hjlen]
        exact List.getElem_mem _
      have hidx : (rest.getD k' ⟨[], 0⟩).loop.getD j 0 < verts.length := by
        have hrmem : rest.getD k' ⟨[], 0⟩ ∈ rest := by
          rw [List.getD_eq_getElem _ _ hk']
          exact List.getElem_mem _
        exact hval _ (List.mem_cons_of_mem f hrmem) _ hmem
      simp only [List.getD_cons_succ]
      unfold vget
      rw [List.getD_append _ _ _ _ hidx]

/-- C8: in NORMAL mode with `height = 0` and a scalar scale of `1`, the
per-cap transform is the identity map — the scale about the local frame and
the translation along the normal both fix every point — so the whole
transform loop leaves the vertex coordinates unchanged; and the extrusion
step itself places every cap vertex at the position of the corresponding
original face vertex.  Together: the cap's vertex positions after the
transform equal the original face's vertex positions. -/
theorem c8_normal_noop :
    (∀ (n c : V3) (x : Aff) (p : V3),
      (capMap .NORMAL false 0 (ScaleV.flo 1) x n c).map (fun φ => φ p)
        = some p) ∧
    (∀ (fd : List FaceDatum) (verts : List V3),
      (∀ t ∈ fd, t.2.1 = (0 : ℝ) ∧ t.2.2.1 = ScaleV.flo 1) →
      applyTransforms .NORMAL false verts fd = some verts) ∧
    (∀ (fs : List BFace) (verts : List V3),
      (∀ f ∈ fs, ∀ i ∈ f.loop, i < verts.length) →
      ∀ k, k < fs.length →
      ∀ j, j < ((extrudeAll verts fs).2.2.getD k ⟨[], 0⟩).loop.length →
      vget (extrudeAll verts fs).1
          (((extrudeAll verts fs).2.2.getD k ⟨[], 0⟩).loop.getD j 0)
        = vget verts ((fs.getD k ⟨[], 0⟩).loop.getD j 0)) := by
  refine ⟨?_, ?_, fun fs verts h => extrudeAll_cap_copy fs verts h⟩
  · intro n c x p
    simp only [capMap, scaleVec, Option.map_some']
    rw [bmoScale_one, bmoTranslate_zero]
  · intro fd
    induction fd with
    | nil => intro verts _; rfl
    | cons t rest ih =>
      intro verts hall
      obtain ⟨f, h, s, x⟩ := t
      have h0 : h = 0 := (hall _ (List.mem_cons_self _ _)).1
      have hs : s = ScaleV.flo 1 := (hall _ (List.mem_cons_self _ _)).2
      subst h0; subst hs
      have hred : applyTransforms .NORMAL false verts
          ((f, (0 : ℝ), ScaleV.flo 1, x) :: rest)
          = applyTransforms .NORMAL false
              (applyCapMap verts f.loop
                (fun p => bmoTranslate ((0 : ℝ) • faceNormal verts f.loop)
                  (bmoScale ⟨1, 1, 1⟩
                    (faceSpace (faceNormal verts f.loop)
                      (faceCenter verts f.loop)) p)))
              rest := rfl
      rw [hred,
        applyCapMap_id (fun p => by rw [bmoScale_one, bmoTranslate_zero])]
      exact ih verts fun t ht => hall t (List.mem_cons_of_mem _ ht)

/-- C8 witness: a concrete one-face transform list with height 0 and scalar
scale 1 leaves the vertex list unchanged, and the cap vertex of a concrete
one-face extrusion sits at the original vertex position. -/
theorem c8_normal_noop_witness :
    applyTransforms .NORMAL false [⟨1, 2, 3⟩]
        [(⟨[0], tagOUT⟩, (0 : ℝ), ScaleV.flo 1, Aff.id)] = some [⟨1, 2, 3⟩] ∧
    vget (extrudeAll [⟨5, 6, 7⟩] [⟨[0], tagOUT⟩]).1
        (((extrudeAll [⟨5, 6, 7⟩] [⟨[0], tagOUT⟩]).2.2.getD 0
          ⟨[], 0⟩).loop.getD 0 0)
      = vget [⟨5, 6, 7⟩] ((([⟨[0], tagOUT⟩] : List BFace).getD 0
          ⟨[], 0⟩).loop.getD 0 0) :=
  ⟨c8_normal_noop.2.1 _ _ (by
      intro t ht
      simp only [List.mem_singleton] at ht
      subst ht
      exact ⟨rfl, rfl⟩),
   c8_normal_noop.2.2 _ _ (by decide) 0 (by decide) 0 (by decide)⟩

/-- C7: for every non-empty parameter list shorter than the required count,
the broadcast helper extends it by repeating its last element until the
length equals the count; in particular a mask `[1]` resolved against 2
faces gives `[1, 1]`, not `[1, 0]`. -/
theorem c7_mask_broadcast :
    (∀ {α : Type} (l : List α) (n : Nat) (h : l ≠ []), l.length < n →
      fullList l n
        = some (l ++ List.replicate (n - l.length) (l.getLast h))) ∧
    fullList [(1 : Int)] 2 = some [1, 1] ∧
    fullList [(1 : Int)] 2 ≠ some [1, 0] := by
  refine ⟨?_, by decide, by decide⟩
  intro α l n h hlen
  unfold fullList
  rw [if_neg (by omega), List.getLast?_eq_getLast_of_ne_nil h]

/-- C7 witness: broadcasting `[1, 2]` to four entries repeats the last
element twice. -/
theorem c7_mask_broadcast_witness :
    fullList [(1 : Int), 2] 4
      = some ([(1 : Int), 2] ++ List.replicate (4 - [(1 : Int), 2].length)
          ([(1 : Int), 2].getLast (by decide))) :=
  c7_mask_broadcast.1 [(1 : Int), 2] 4 (by decide) (by decide)

/-- C9: when the Vertices input or the Polygons input is not linked, or no
output socket is linked, `process` returns the silent skip result — no
error and no output — for every configuration and every batch payload. -/
theorem c9_skip_guard (cfg : NodeCfg) (vIn : Bool) (ins : NodeInputs)
    (outs : OutLinks)
    (h : ins.verticesLinked = false ∨ ins.polygonsLinked = false ∨
      outs.anyLinked = false) :
    process cfg vIn ins outs = ProcResult.skipped := by
  rcases h with h | h | h <;> simp [process, h]

/-- C9 witness: a fully unlinked node instance is skipped. -/
theorem c9_skip_guard_witness :
    process ⟨.NORMAL, .NOEXTRUDE, ⟨false, true, false⟩⟩ false
      ⟨false, false, false, [], [], [], [], [], []⟩
      ⟨false, false, false, false, false, false⟩ = ProcResult.skipped :=
  c9_skip_guard _ _ _ _ (Or.inl rfl)

theorem selectionOf_noextrude_mem (faces : List BFace) (ms : List Int)
    (i : Nat) (hlen : faces.length ≤ ms.length) :
    i ∈ selectionOf .NOEXTRUDE faces ms ↔
      i < faces.length ∧ ms.getD i 0 ≠ 0 := by
  simp only [selectionOf, List.mem_filterMap]
  constructor
  · rintro ⟨p, hp, hfp⟩
    obtain ⟨k, hk, hpk⟩ := List.mem_iff_getElem.mp hp
    have hk' : k < faces.length := by
      simp only [List.length_zip, List.length_range] at hk
      omega
    rw [List.getElem_zip] at hpk
    by_cases hz : ms.getD k 0 ≠ 0
    · have hpe : p = (k, ms.getD k 0) := by
        rw [← hpk]
        congr 1
        · simp
        · rw [List.getD_eq_getElem _ _ (by omega)]
      subst hpe
      rw [if_pos hz] at hfp
      obtain rfl : k = i := by simpa using hfp
      exact ⟨hk', hz⟩
    · push_neg at hz
      have hpe : p.2 = 0 := by
        rw [← hpk]
        simp only
        rw [← List.getD_eq_getElem ms 0 (by omega)]
        exact hz
      rw [if_neg (by simp [hpe])] at hfp
      cases hfp
  · rintro ⟨hi, hz⟩
    refine ⟨(i, ms.getD i 0), ?_, by exact if_pos hz⟩
    apply List.mem_iff_getElem.mpr
    refine ⟨i, ?_, ?_⟩
    · simp only [List.length_zip, List.length_range, hlen]
      omega
    · rw [List.getElem_zip]
      congr 1
      · simp
      · rw [List.getD_eq_getElem _ _ (by omega)]

theorem faceDataOf_notransform_fst (caps : List BFace) :
    ∀ (ms : List Int) (hs : List ℝ) (ss : List ScaleV) (xs : List Aff),
      caps.length ≤ ms.length → caps.length ≤ hs.length →
      caps.length ≤ ss.length → caps.length ≤ xs.length →
      (faceDataOf .NOTRANSFORM caps ms hs ss xs).map (fun t => t.1)
        = ((caps.zip ms).filter fun p => decide (p.2 ≠ 0)).map Prod.fst := by
  induction caps with
  | nil => intro ms hs ss xs _ _ _ _; rfl
  | cons cp caps' ih =>
    intro ms hs ss xs hm hh hsl hx
    match ms, hs, ss, xs with
    | m :: ms', h :: hs', s :: ss', x :: xs' =>
      have ihh := ih ms' hs' ss' xs' (by simpa using hm) (by simpa using hh)
        (by simpa using hsl) (by simpa using hx)
      simp only [faceDataOf] at ihh
      by_cases hz : m ≠ 0
      · simp only [faceDataOf, List.zip_cons_cons]
        rw [List.filterMap_cons_some (by exact if_pos hz),
          List.filter_cons_of_pos (by simpa using hz),
          List.map_cons, List.map_cons, ihh]
      · simp only [faceDataOf, List.zip_cons_cons]
        rw [List.filterMap_cons_none (by exact if_neg hz),
          List.filter_cons_of_neg (by simpa using hz), ihh]

theorem applyCapMapAux_length (loop : List Nat) (φ : V3 → V3) :
    ∀ (i : Nat) (vs : List V3),
      (applyCapMapAux loop φ i vs).length = vs.length := by
  intro i vs
  induction vs generalizing i with
  | nil => rfl
  | cons p ps ih => simp [applyCapMapAux, ih]

theorem applyCapMapAux_getD (loop : List Nat) (φ : V3 → V3) :
    ∀ (vs : List V3) (i0 j : Nat), i0 + j ∉ loop →
      (applyCapMapAux loop φ i0 vs).getD j 0 = vs.getD j 0 := by
  intro vs
  induction vs with
  | nil => intro i0 j _; rfl
  | cons p ps ih =>
    intro i0 j hnm
    cases j with
    | zero =>
      simp only [applyCapMapAux, List.getD_cons_zero]
      rw [if_neg (by simpa using hnm)]
    | succ j' =>
      simp only [applyCapMapAux, List.getD_cons_succ]
      exact ih (i0 + 1) j'
        (by rw [show i0 + 1 + j' = i0 + (j' + 1) by omega]; exact hnm)

theorem applyCapMap_vget_notmem (verts : List V3) (loop : List Nat)
    (φ : V3 → V3) (i : Nat) (h : i ∉ loop) :
    vget (applyCapMap verts loop φ) i = vget verts i :=
  applyCapMapAux_getD loop φ verts 0 i (by simpa using h)

theorem applyTransforms_untouched (em : ExMode) (vIn : Bool)
    (fd : List FaceDatum) :
    ∀ (verts res : List V3),
      applyTransforms em vIn verts fd = some res →
      ∀ i, (∀ t ∈ fd, i ∉ t.1.loop) → vget res i = vget verts i := by
  induction fd with
  | nil =>
    intro verts res h i _
    simp only [applyTransforms, Option.some.injEq] at h
    rw [h]
  | cons t rest ih =>
    intro verts res h i hnm
    obtain ⟨f, hh, s, x⟩ := t
    simp only [applyTransforms] at h
    rcases hcm : capMap em vIn hh s x (faceNormal verts f.loop)
        (faceCenter verts f.loop) with _ | φ
    · rw [hcm] at h; cases h
    · rw [hcm] at h
      have hrec := ih (applyCapMap verts f.loop φ) res h i
        (fun t ht => hnm t (List.mem_cons_of_mem _ ht))
      rw [hrec,
        applyCapMap_vget_notmem verts f.loop φ i
          (hnm _ (List.mem_cons_self _ _))]

/-- C1: the mask-mode policy.  In NOEXTRUDE mode the extrude selection
contains exactly the faces whose resolved mask is truthy; in NOTRANSFORM
mode every face is selected, the per-face transform data keeps exactly the
caps of mask-truthy faces, and the transform loop leaves every vertex
outside the selected caps' loops unchanged (caps of mask-falsy faces
receive no transform). -/
theorem c1_mask_policy :
    (∀ (faces : List BFace) (ms : List Int) (i : Nat),
      ms.length = faces.length →
      (i ∈ selectionOf .NOEXTRUDE faces ms ↔
        i < faces.length ∧ ms.getD i 0 ≠ 0)) ∧
    (∀ (faces : List BFace) (ms : List Int),
      selectionOf .NOTRANSFORM faces ms = List.range faces.length) ∧
    (∀ (caps : List BFace) (ms : List Int) (hs : List ℝ) (ss : List ScaleV)
      (xs : List Aff),
      caps.length ≤ ms.length → caps.length ≤ hs.length →
      caps.length ≤ ss.length → caps.length ≤ xs.length →
      (faceDataOf .NOTRANSFORM caps ms hs ss xs).map (fun t => t.1)
        = ((caps.zip ms).filter fun p => decide (p.2 ≠ 0)).map Prod.fst) ∧
    (∀ (em : ExMode) (vIn : Bool) (fd : List FaceDatum)
      (verts res : List V3),
      applyTransforms em vIn verts fd = some res →
      ∀ i, (∀ t ∈ fd, i ∉ t.1.loop) → vget res i = vget verts i) :=
  ⟨fun faces ms i hlen =>
    selectionOf_noextrude_mem faces ms i (le_of_eq hlen.symm),
   fun _ _ => rfl, faceDataOf_notransform_fst,
   fun em vIn fd verts res h => applyTransforms_untouched em vIn fd verts res h⟩

/-- C1 witness: with one face and mask `[1]` the face is selected in
NOEXTRUDE mode; a mask-falsy entry is dropped from the NOTRANSFORM
face-data; and an empty transform list moves nothing. -/
theorem c1_mask_policy_witness :
    (0 ∈ selectionOf .NOEXTRUDE [(⟨[0], tagOUT⟩ : BFace)] [1]) ∧
    (faceDataOf .NOTRANSFORM [(⟨[3], tagMASK⟩ : BFace)] [0] [0]
        [ScaleV.flo 1] [Aff.id]).map (fun t => t.1)
      = (([(⟨[3], tagMASK⟩ : BFace)].zip [(0 : Int)]).filter
          fun p => decide (p.2 ≠ 0)).map Prod.fst ∧
    vget [(⟨1, 2, 3⟩ : V3)] 5 = vget [(⟨1, 2, 3⟩ : V3)] 5 :=
  ⟨(c1_mask_policy.1 [⟨[0], tagOUT⟩] [1] 0 rfl).mpr (by decide),
   c1_mask_policy.2.2.1 [⟨[3], tagMASK⟩] [0] [0] [ScaleV.flo 1] [Aff.id]
     (by decide) (by decide) (by decide) (by decide),
   c1_mask_policy.2.2.2 .NORMAL false [] [⟨1, 2, 3⟩] [⟨1, 2, 3⟩] rfl 5
     (fun t ht => absurd ht (List.not_mem_nil t))⟩

theorem fullList_length {α : Type} {l l' : List α} {n : Nat}
    (h : fullList l n = some l') : l'.length = max l.length n := by
  unfold fullList at h
  by_cases hle : n ≤ l.length
  · rw [if_pos hle] at h
    obtain rfl : l = l' := by simpa using h
    omega
  · rw [if_neg hle] at h
    cases hl : l.getLast? with
    | none => rw [hl] at h; cases h
    | some a =>
      rw [hl] at h
      obtain rfl : l ++ List.replicate (n - l.length) a = l' := by
        simpa using h
      simp only [List.length_append, List.length_replicate]
      omega

theorem fullList_mem {α : Type} {l l' : List α} {n : Nat}
    (h : fullList l n = some l') : ∀ a ∈ l', a ∈ l := by
  unfold fullList at h
  by_cases hle : n ≤ l.length
  · rw [if_pos hle] at h
    obtain rfl : l = l' := by simpa using h
    exact fun a ha => ha
  · rw [if_neg hle] at h
    cases hl : l.getLast? with
    | none => rw [hl] at h; cases h
    | some a =>
      rw [hl] at h
      obtain rfl : l ++ List.replicate (n - l.length) a = l' := by
        simpa using h
      intro b hb
      rcases List.mem_append.mp hb with hb | hb
      · exact hb
      · have hba : b = a := List.eq_of_mem_replicate hb
        subst hba
        obtain ⟨hne, hba⟩ := List.mem_getLast?_eq_getLast
          (show b ∈ l.getLast? from by rw [hl]; rfl)
        rw [hba]
        exact List.getLast_mem hne

theorem mapIdx_getD {α β : Type} (l : List α) (f : Nat → α → β) (i : Nat)
    (d : β) (d' : α) (h : i < l.length) :
    (l.mapIdx f).getD i d = f i (l.getD i d') := by
  have hlen : i < (l.mapIdx f).length := by
    simpa [List.length_mapIdx] using h
  rw [List.getD_eq_getElem _ _ hlen, List.getD_eq_getElem _ _ h]
  have h2 := List.get_mapIdx l f i h
  simp only [List.get_eq_getElem] at h2
  exact h2

theorem mem_mapIdx_ex {α β : Type} {l : List α} {f : Nat → α → β} {b : β}
    (h : b ∈ l.mapIdx f) :
    ∃ i, ∃ hi : i < l.length, b = f i (l.get ⟨i, hi⟩) := by
  obtain ⟨i, hi, hb⟩ := List.mem_iff_getElem.mp h
  have hi' : i < l.length := by simpa [List.length_mapIdx] using hi
  refine ⟨i, hi', ?_⟩
  rw [← hb]
  simp only [List.get_eq_getElem]
  have h2 := List.get_mapIdx l f i hi'
  simp only [List.get_eq_getElem] at h2
  exact h2

theorem fillFacesLayer_faces_length (bm : BMesh) (ms : List Int) :
    (fillFacesLayer bm ms).faces.length = bm.faces.length := by
  simp [fillFacesLayer, List.length_mapIdx]

theorem fillFacesLayer_verts (bm : BMesh) (ms : List Int) :
    (fillFacesLayer bm ms).verts = bm.verts := rfl

theorem extrudeDF_verts (bm : BMesh) (sel : List Nat) :
    (extrudeDiscreteFaces bm sel).1.verts
      = (extrudeAll bm.verts (sel.map fun i => bm.faces.getD i ⟨[], tagOUT⟩)).1 :=
  rfl

theorem extrudeDF_caps (bm : BMesh) (sel : List Nat) :
    (extrudeDiscreteFaces bm sel).2
      = (extrudeAll bm.verts
          (sel.map fun i => bm.faces.getD i ⟨[], tagOUT⟩)).2.2 :=
  rfl

theorem extrudeDF_faces (bm : BMesh) (sel : List Nat) :
    (extrudeDiscreteFaces bm sel).1.faces
      = ((bm.faces.enum.filter fun p => decide (p.1 ∉ sel)).map Prod.snd)
        ++ (extrudeAll bm.verts
            (sel.map fun i => bm.faces.getD i ⟨[], tagOUT⟩)).2.1
        ++ (extrudeAll bm.verts
            (sel.map fun i => bm.faces.getD i ⟨[], tagOUT⟩)).2.2 :=
  rfl

theorem caps_mem_faces {bm : BMesh} {sel : List Nat} {cap : BFace}
    (h : cap ∈ (extrudeDiscreteFaces bm sel).2) :
    cap ∈ (extrudeDiscreteFaces bm sel).1.faces := by
  rw [extrudeDF_faces]
  rw [extrudeDF_caps] at h
  exact List.mem_append.mpr (Or.inr h)

theorem faceDataOf_fst_mem {mm : MkMode} {caps : List BFace}
    {ms : List Int} {hs : List ℝ} {ss : List ScaleV} {xs : List Aff}
    {t : FaceDatum} (h : t ∈ faceDataOf mm caps ms hs ss xs) :
    t.1 ∈ caps := by
  cases mm with
  | NOEXTRUDE =>
    simp only [faceDataOf] at h
    obtain ⟨f, rest⟩ := t
    exact (List.of_mem_zip h).1
  | NOTRANSFORM =>
    simp only [faceDataOf, List.mem_filterMap] at h
    obtain ⟨a, ha, hfa⟩ := h
    by_cases hz : a.2.1 ≠ 0
    · rw [if_pos hz] at hfa
      obtain ⟨f, rest⟩ := a
      obtain rfl : (f, rest.2) = t := by simpa using hfa
      exact (List.of_mem_zip ha).1
    · rw [if_neg hz] at hfa
      cases hfa

theorem bmeshFromPydata_inv {vertices : List V3} {faces : List (List Nat)}
    {bm : BMesh} (h : bmeshFromPydata vertices faces = some bm) :
    bm = ⟨vertices, faces.map fun l => ⟨l, tagOUT⟩⟩ ∧
    ∀ l ∈ faces, ∀ i ∈ l, i < vertices.length := by
  unfold bmeshFromPydata at h
  by_cases hv : faces.all (fun l => l.all (· < vertices.length)) = true
  · rw [if_pos hv] at h
    refine ⟨by simpa using h.symm, ?_⟩
    intro l hl i hi
    have := List.all_eq_true.mp hv l hl
    have := List.all_eq_true.mp this i hi
    simpa using this
  · rw [if_neg hv] at h
    cases h

theorem processItem_inv {cfg : NodeCfg} {vIn : Bool} {links : OutLinks}
    {vertices : List V3} {faces : List (List Nat)} {ms0 : List Int}
    {hs0 : List ℝ} {ss0 : List ScaleV} {xs0 : List Aff} {r : ItemResult}
    (h : processItem cfg vIn links vertices faces ms0 hs0 ss0 xs0 = some r) :
    ∃ hs ss xs ms bm,
      fullList hs0 faces.length = some hs ∧
      fullList ss0 faces.length = some ss ∧
      fullList xs0 faces.length = some xs ∧
      fullList ms0 faces.length = some ms ∧
      bmeshFromPydata vertices faces = some bm ∧
      processCore cfg vIn links bm ms hs ss xs = some r := by
  simp only [processItem, Option.bind_eq_some] at h
  obtain ⟨hs, hhs, ss, hss, xs, hxs, ms, hms, bm, hbm, hcore⟩ := h
  exact ⟨hs, ss, xs, ms, bm, hhs, hss, hxs, hms, hbm, hcore⟩

/-- The extrude selection as `processCore` computes it. -/
def coreSel (cfg : NodeCfg) (bm : BMesh) (ms : List Int) : List Nat :=
  selectionOf cfg.maskMode (fillFacesLayer bm ms).faces ms

/-- The extrusion result (final mesh and cap list) as `processCore`
computes it. -/
def coreER (cfg : NodeCfg) (bm : BMesh) (ms : List Int) :
    BMesh × List BFace :=
  extrudeDiscreteFaces (fillFacesLayer bm ms) (coreSel cfg bm ms)

/-- The `face_data` list as `processCore` computes it. -/
def coreFD (cfg : NodeCfg) (bm : BMesh) (ms : List Int) (hs : List ℝ)
    (ss : List ScaleV) (xs : List Aff) : List FaceDatum :=
  faceDataOf cfg.maskMode (coreER cfg bm ms).2 ms hs ss xs

theorem processCore_inv {cfg : NodeCfg} {vIn : Bool} {links : OutLinks}
    {bm : BMesh} {ms : List Int} {hs : List ℝ} {ss : List ScaleV}
    {xs : List Aff} {r : ItemResult}
    (h : processCore cfg vIn links bm ms hs ss xs = some r) :
    ∃ verts2,
      applyTransforms cfg.extrudeMode vIn (coreER cfg bm ms).1.verts
          (coreFD cfg bm ms hs ss xs) = some verts2 ∧
      r.vertices = verts2 ∧
      r.faces = pydataFaces (coreER cfg bm ms).1 ∧
      r.extruded = (if links.extrudedPolys || links.otherPolys then
        (coreFD cfg bm ms hs ss xs).map (fun t => t.1.loop) else []) ∧
      r.other = (if links.otherPolys then
        r.faces.filter (fun l => !(decide (l ∈ r.extruded))) else []) ∧
      (links.mask = true → ∃ om,
        getOutMask cfg.maskOutType (coreER cfg bm ms).1.faces
            (capIdxsOf (coreER cfg bm ms).1 (coreER cfg bm ms).2) = some om ∧
        r.maskOut = some om) ∧
      (links.mask = false → r.maskOut = none) := by
  simp only [processCore, Option.bind_eq_some] at h
  obtain ⟨verts2, happ, hrest⟩ := h
  refine ⟨verts2, happ, ?_⟩
  by_cases hm : links.mask
  · rw [if_pos hm] at hrest
    simp only [Option.bind_eq_some] at hrest
    obtain ⟨om, hom, heq⟩ := hrest
    have hr := Option.some.inj heq
    subst hr
    refine ⟨rfl, rfl, rfl, rfl, fun _ => ⟨om, hom, rfl⟩, fun hf => ?_⟩
    rw [hm] at hf; cases hf
  · rw [if_neg hm] at hrest
    have hr := Option.some.inj hrest
    subst hr
    refine ⟨rfl, rfl, rfl, rfl, fun ht => ?_, fun _ => rfl⟩
    simp only [Bool.not_eq_true] at hm
    rw [hm] at ht; cases ht

/-- C4: when both face-list outputs are consumed, the extruded list and the
other list partition the final face set: their union is the full face list
of the final mesh and they are disjoint. -/
theorem c4_partition (cfg : NodeCfg) (vIn : Bool) (links : OutLinks)
    (vertices : List V3) (faces : List (List Nat)) (ms0 : List Int)
    (hs0 : List ℝ) (ss0 : List ScaleV) (xs0 : List Aff) (r : ItemResult)
    (h : processItem cfg vIn links vertices faces ms0 hs0 ss0 xs0 = some r)
    (hep : links.extrudedPolys = true) (hop : links.otherPolys = true) :
    (∀ l, l ∈ r.faces ↔ (l ∈ r.extruded ∨ l ∈ r.other)) ∧
    (∀ l ∈ r.extruded, l ∉ r.other) := by
  obtain ⟨hs, ss, xs, ms, bm, _, _, _, _, _, hcore⟩ := processItem_inv h
  obtain ⟨verts2, happ, hv, hf, he, ho, _, _⟩ := processCore_inv hcore
  rw [hep] at he
  rw [hop] at ho
  simp only [Bool.true_or, if_pos] at he
  simp only [if_pos] at ho
  have hsub : ∀ l ∈ r.extruded, l ∈ r.faces := by
    intro l hl
    rw [he] at hl
    obtain ⟨t, ht, rfl⟩ := List.mem_map.mp hl
    rw [hf]
    have hcap : t.1 ∈ (coreER cfg bm ms).2 := by
      simp only [coreFD] at ht
      exact faceDataOf_fst_mem ht
    have hmem : t.1 ∈ (coreER cfg bm ms).1.faces := by
      simp only [coreER] at hcap ⊢
      exact caps_mem_faces hcap
    exact List.mem_map.mpr ⟨t.1, hmem, rfl⟩
  constructor
  · intro l
    constructor
    · intro hlf
      by_cases hle : l ∈ r.extruded
      · exact Or.inl hle
      · refine Or.inr ?_
        rw [ho]
        exact List.mem_filter.mpr ⟨hlf, by simpa using hle⟩
    · rintro (hle | hlo)
      · exact hsub l hle
      · rw [ho] at hlo
        exact (List.mem_filter.mp hlo).1
  · intro l hle
    rw [ho]
    intro hlo
    have hpred := (List.mem_filter.mp hlo).2
    simp only [Bool.not_eq_true', decide_eq_false_iff_not] at hpred
    exact absurd hle hpred

/-- Concrete vertex list used by the witnesses: one triangle. -/
def wVerts : List V3 := [⟨0, 0, 0⟩, ⟨1, 0, 0⟩, ⟨0, 1, 0⟩]

/-- Concrete node configuration used by the witnesses: NORMAL mode,
NOEXTRUDE mask mode, output-mask set `{out}` (the node's default). -/
def wCfg : NodeCfg := ⟨.NORMAL, .NOEXTRUDE, ⟨false, true, false⟩⟩

/-- Output links used by the witnesses: both face lists consumed, mask
output unlinked. -/
def wLinks : OutLinks := ⟨true, false, true, true, true, false⟩

/-- Result of the concrete run: with mask `[0]` nothing is extruded and the
single face passes straight through to `OtherPolys`. -/
def wRes : ItemResult := ⟨wVerts, [[0, 1, 2]], [], [[0, 1, 2]], none⟩

theorem wRun : processItem wCfg false wLinks wVerts [[0, 1, 2]] [0] [0]
    [ScaleV.flo 1] [Aff.id] = some wRes := rfl

/-- C4 witness: on the concrete masked-out triangle, the face list is the
disjoint union of the (empty) extruded list and the other list. -/
theorem c4_partition_witness :
    [0, 1, 2] ∈ wRes.faces ↔
      ([0, 1, 2] ∈ wRes.extruded ∨ [0, 1, 2] ∈ wRes.other) :=
  (c4_partition wCfg false wLinks wVerts [[0, 1, 2]] [0] [0] [ScaleV.flo 1]
    [Aff.id] wRes wRun rfl rfl).1 [0, 1, 2]

theorem faceDataOf_noextrude_fst (caps : List BFace) :
    ∀ (ms : List Int) (hs : List ℝ) (ss : List ScaleV) (xs : List Aff),
      caps.length ≤ hs.length → caps.length ≤ ss.length →
      caps.length ≤ xs.length →
      (faceDataOf .NOEXTRUDE caps ms hs ss xs).map (fun t => t.1) = caps := by
  induction caps with
  | nil => intro ms hs ss xs _ _ _; rfl
  | cons cp caps' ih =>
    intro ms hs ss xs hh hsl hx
    match hs, ss, xs with
    | h :: hs', s :: ss', x :: xs' =>
      simp only [faceDataOf, List.zip_cons_cons, List.map_cons]
      have := ih ms hs' ss' xs' (by simpa using hh) (by simpa using hsl)
        (by simpa using hx)
      simp only [faceDataOf] at this
      rw [this]

theorem selectionOf_length_le (mm : MkMode) (faces : List BFace)
    (ms : List Int) : (selectionOf mm faces ms).length ≤ faces.length := by
  cases mm with
  | NOEXTRUDE =>
    calc (selectionOf .NOEXTRUDE faces ms).length
        ≤ ((List.range faces.length).zip ms).length :=
          List.length_filterMap_le _ _
      _ ≤ faces.length := by
          simp only [List.length_zip, List.length_range]
          omega
  | NOTRANSFORM => simp [selectionOf]

theorem coreER_caps_length_le (cfg : NodeCfg) (bm : BMesh) (ms : List Int) :
    (coreER cfg bm ms).2.length ≤ bm.faces.length := by
  simp only [coreER, extrudeDF_caps, extrudeAll_caps_count, List.length_map]
  have := selectionOf_length_le cfg.maskMode (fillFacesLayer bm ms).faces ms
  simpa [fillFacesLayer_faces_length, coreSel] using this

/-- Concrete configuration for the NOTRANSFORM counterexample. -/
def xCfg : NodeCfg := ⟨.NORMAL, .NOTRANSFORM, ⟨false, true, false⟩⟩

/-- The mesh built from the triangle input. -/
def wBM : BMesh := ⟨wVerts, [⟨[0, 1, 2], tagOUT⟩]⟩

/-- Result of the NOTRANSFORM run with mask `[0]`: the face is extruded
(three side quads and a cap appear) but nothing is recorded in the
extruded-polys list because the transform loop filters the mask-falsy
entry out. -/
def xRes : ItemResult :=
  ⟨wVerts ++ [⟨0, 0, 0⟩, ⟨1, 0, 0⟩, ⟨0, 1, 0⟩],
   [[0, 1, 4, 3], [1, 2, 5, 4], [2, 0, 3, 5], [3, 4, 5]],
   [],
   [[0, 1, 4, 3], [1, 2, 5, 4], [2, 0, 3, 5], [3, 4, 5]],
   none⟩

/-- C3 counterexample: in NOTRANSFORM mode with mask `[0]` and the
ExtrudedPolys output consumed, the extrusion step creates one cap face, yet
the emitted ExtrudedPolys list is empty — it does not contain the loop of
every cap face created by the extrusion step. -/
theorem c3_extruded_polys_counterexample :
    processItem xCfg false wLinks wVerts [[0, 1, 2]] [0] [0] [ScaleV.flo 1]
      [Aff.id] = some xRes ∧
    wLinks.extrudedPolys = true ∧
    xRes.extruded = [] ∧
    (coreER xCfg wBM [0]).2.length = 1 :=
  ⟨rfl, rfl, rfl, rfl⟩

/-- C3 (amended): when the ExtrudedPolys output is consumed, the emitted
list holds the vertex-index loops of the caps of the transform-selected
faces, in extrusion order: in NOEXTRUDE mode every cap created by the
extrusion, and in NOTRANSFORM mode exactly the caps of the faces whose
resolved mask is truthy (caps of mask-falsy faces are not emitted). -/
theorem c3_extruded_polys_amended (cfg : NodeCfg) (vIn : Bool)
    (links : OutLinks) (vertices : List V3) (faces : List (List Nat))
    (ms0 : List Int) (hs0 : List ℝ) (ss0 : List ScaleV) (xs0 : List Aff)
    (r : ItemResult) (ms : List Int) (bm : BMesh)
    (h : processItem cfg vIn links vertices faces ms0 hs0 ss0 xs0 = some r)
    (hep : links.extrudedPolys = true)
    (hms : fullList ms0 faces.length = some ms)
    (hbm : bmeshFromPydata vertices faces = some bm) :
    (cfg.maskMode = .NOEXTRUDE →
      r.extruded = (coreER cfg bm ms).2.map BFace.loop) ∧
    (cfg.maskMode = .NOTRANSFORM →
      r.extruded = ((((coreER cfg bm ms).2.zip ms).filter
        fun p => decide (p.2 ≠ 0)).map Prod.fst).map BFace.loop) := by
  obtain ⟨hs, ss, xs, ms', bm', hhs, hss, hxs, hms', hbm', hcore⟩ :=
    processItem_inv h
  have hmse : ms' = ms := Option.some.inj (by rw [← hms', ← hms])
  have hbme : bm' = bm := Option.some.inj (by rw [← hbm', ← hbm])
  rw [hmse, hbme] at hcore
  obtain ⟨verts2, happ, hv, hf, he, ho, _, _⟩ := processCore_inv hcore
  rw [hep] at he
  simp only [Bool.true_or, if_pos] at he
  have hfl : bm.faces.length = faces.length := by
    obtain ⟨rfl, _⟩ := bmeshFromPydata_inv hbm
    simp
  have hcl : (coreER cfg bm ms).2.length ≤ faces.length := by
    have := coreER_caps_length_le cfg bm ms
    omega
  have hhl : (coreER cfg bm ms).2.length ≤ hs.length := by
    have := fullList_length hhs; omega
  have hsl : (coreER cfg bm ms).2.length ≤ ss.length := by
    have := fullList_length hss; omega
  have hxl : (coreER cfg bm ms).2.length ≤ xs.length := by
    have := fullList_length hxs; omega
  have hml : (coreER cfg bm ms).2.length ≤ ms.length := by
    have := fullList_length hms; omega
  constructor
  · intro hmm
    rw [he]
    have hfst := faceDataOf_noextrude_fst (coreER cfg bm ms).2 ms hs ss xs
      hhl hsl hxl
    calc (coreFD cfg bm ms hs ss xs).map (fun t => t.1.loop)
        = ((coreFD cfg bm ms hs ss xs).map (fun t => t.1)).map BFace.loop := by
          rw [List.map_map]; rfl
      _ = (coreER cfg bm ms).2.map BFace.loop := by
          simp only [coreFD, hmm]
          rw [hfst]
  · intro hmm
    rw [he]
    have hfst := faceDataOf_notransform_fst (coreER cfg bm ms).2 ms hs ss xs
      hml hhl hsl hxl
    calc (coreFD cfg bm ms hs ss xs).map (fun t => t.1.loop)
        = ((coreFD cfg bm ms hs ss xs).map (fun t => t.1)).map BFace.loop := by
          rw [List.map_map]; rfl
      _ = _ := by
          simp only [coreFD, hmm]
          rw [hfst]

/-- C3 witness: the concrete NOEXTRUDE run emits exactly the cap loops (an
empty list for the masked-out triangle). -/
theorem c3_extruded_polys_amended_witness :
    wRes.extruded = (coreER wCfg wBM [0]).2.map BFace.loop :=
  (c3_extruded_polys_amended wCfg false wLinks wVerts [[0, 1, 2]] [0] [0]
    [ScaleV.flo 1] [Aff.id] wRes [0] wBM wRun rfl rfl rfl).1 rfl

theorem kept_mem_extrudeDF {bm : BMesh} {sel : List Nat} {j : Nat}
    (hj : j < bm.faces.length) (hns : j ∉ sel) :
    bm.faces.getD j ⟨[], 0⟩ ∈ (extrudeDiscreteFaces bm sel).1.faces := by
  rw [extrudeDF_faces]
  apply List.mem_append.mpr
  left
  apply List.mem_append.mpr
  left
  apply List.mem_map.mpr
  refine ⟨(j, bm.faces.getD j ⟨[], 0⟩), ?_, rfl⟩
  apply List.mem_filter.mpr
  constructor
  · apply List.mem_iff_getElem.mpr
    refine ⟨j, by simpa [List.enum_length] using hj, ?_⟩
    rw [List.getElem_enum]
    rw [List.getD_eq_getElem _ _ hj]
  · simpa using hns

theorem fillFacesLayer_getD {bm : BMesh} {ms : List Int} {j : Nat}
    (hj : j < bm.faces.length) :
    (fillFacesLayer bm ms).faces.getD j ⟨[], 0⟩
      = ⟨(bm.faces.getD j ⟨[], 0⟩).loop, ms.getD j tagOUT⟩ := by
  simp only [fillFacesLayer]
  exact mapIdx_getD bm.faces
    (fun i f => ⟨f.loop, ms.getD i tagOUT⟩) j (⟨[], 0⟩ : BFace)
    (⟨[], 0⟩ : BFace) hj

/-- C6: in NOEXTRUDE mode a face whose resolved mask is falsy passes
through untouched — its vertex-index loop appears unchanged among the
output faces, and every one of its vertices keeps exactly its input
position (extrusion appends only fresh vertices and the transform loop
touches only cap vertices, which lie beyond the original range). -/
theorem c6_noextrude_untouched (cfg : NodeCfg) (vIn : Bool)
    (links : OutLinks) (vertices : List V3) (faces : List (List Nat))
    (ms0 : List Int) (hs0 : List ℝ) (ss0 : List ScaleV) (xs0 : List Aff)
    (r : ItemResult) (ms : List Int) (j : Nat)
    (h : processItem cfg vIn links vertices faces ms0 hs0 ss0 xs0 = some r)
    (hmm : cfg.maskMode = .NOEXTRUDE)
    (hms : fullList ms0 faces.length = some ms)
    (hj : j < faces.length)
    (hfal : ms.getD j 0 = 0) :
    (faces.getD j []) ∈ r.faces ∧
    ∀ i ∈ faces.getD j [], vget r.vertices i = vget vertices i := by
  obtain ⟨hs, ss, xs, ms', bm, hhs, hss, hxs, hms', hbm, hcore⟩ :=
    processItem_inv h
  have hmse : ms' = ms := Option.some.inj (by rw [← hms', ← hms])
  rw [hmse] at hcore
  obtain ⟨hbmv, hval⟩ := bmeshFromPydata_inv hbm
  obtain ⟨verts2, happ, hv, hf, _, _, _, _⟩ := processCore_inv hcore
  have hb1len : (fillFacesLayer bm ms).faces.length = faces.length := by
    rw [fillFacesLayer_faces_length, hbmv]
    simp
  have hmlen : faces.length ≤ ms.length := by
    have := fullList_length hms; omega
  have hnsel : j ∉ coreSel cfg bm ms := by
    intro hmem
    simp only [coreSel, hmm] at hmem
    have := (selectionOf_noextrude_mem (fillFacesLayer bm ms).faces ms j
      (by omega)).mp hmem
    exact absurd this.2 (by simpa using hfal)
  have hbm1getD : (fillFacesLayer bm ms).faces.getD j ⟨[], 0⟩
      = ⟨faces.getD j [], ms.getD j tagOUT⟩ := by
    rw [fillFacesLayer_getD (by rw [hbmv]; simpa using hj)]
    congr 1
    rw [hbmv]
    simp only
    rw [List.getD_eq_getElem _ _ (by simpa using hj), List.getElem_map,
      List.getD_eq_getElem _ _ hj]
  have hkept : (⟨faces.getD j [], ms.getD j tagOUT⟩ : BFace)
      ∈ (coreER cfg bm ms).1.faces := by
    rw [← hbm1getD]
    exact kept_mem_extrudeDF (by omega) hnsel
  constructor
  · rw [hf]
    exact List.mem_map.mpr ⟨_, hkept, rfl⟩
  · intro i hi
    have hloopmem : faces.getD j [] ∈ faces := by
      rw [List.getD_eq_getElem _ _ hj]
      exact List.getElem_mem _
    have hiv : i < vertices.length := hval _ hloopmem i hi
    have hver : (fillFacesLayer bm ms).verts = vertices := by
      rw [fillFacesLayer_verts, hbmv]
    have hnotloop : ∀ t ∈ coreFD cfg bm ms hs ss xs, i ∉ t.1.loop := by
      intro t ht hmem
      have hcap : t.1 ∈ (coreER cfg bm ms).2 := by
        simp only [coreFD] at ht
        exact faceDataOf_fst_mem ht
      rw [coreER, extrudeDF_caps] at hcap
      have := extrudeAll_caps_ge _ _ _ hcap i hmem
      rw [hver] at this
      omega
    have h1 : vget r.vertices i
        = vget (coreER cfg bm ms).1.verts i := by
      rw [hv]
      exact applyTransforms_untouched _ _ _ _ _ happ i hnotloop
    have h2 : vget (coreER cfg bm ms).1.verts i = vget vertices i := by
      rw [coreER, extrudeDF_verts]
      have h3 := extrudeAll_vget_lt
        ((coreSel cfg bm ms).map fun k =>
          (fillFacesLayer bm ms).faces.getD k ⟨[], tagOUT⟩)
        (fillFacesLayer bm ms).verts i (by rw [hver]; exact hiv)
      rw [h3, hver]
    rw [h1, h2]

/-- C6 witness: on the concrete masked-out triangle run, the face loop
survives and vertex 0 keeps its position. -/
theorem c6_noextrude_untouched_witness :
    ([[0, 1, 2]].getD 0 []) ∈ wRes.faces ∧
    ∀ i ∈ [[0, 1, 2]].getD 0 [], vget wRes.vertices i = vget wVerts i :=
  c6_noextrude_untouched wCfg false wLinks wVerts [[0, 1, 2]] [0] [0]
    [ScaleV.flo 1] [Aff.id] wRes [0] 0 wRun rfl rfl (by decide) rfl

/-- Value emitted by `get_out_mask` for one face tag:
`int(MASK_MEANING[tag] in mask_out_type)`. -/
def outFn (mot : MaskOutType) (t : Int) : Int :=
  if t = 0 then (if mot.hasMask then 1 else 0)
  else if t = 1 then (if mot.hasOut then 1 else 0)
  else if t = 2 then (if mot.hasIn then 1 else 0)
  else 0

theorem tagsToMask_explicit (mot : MaskOutType) :
    ∀ ts : List Int, (∀ t ∈ ts, t = 0 ∨ t = 1 ∨ t = 2) →
      tagsToMask mot ts = some (ts.map (outFn mot)) := by
  intro ts
  induction ts with
  | nil => intro _; rfl
  | cons t ts' ih =>
    intro hall
    have ht := hall t (List.mem_cons_self _ _)
    have hrest := ih fun u hu => hall u (List.mem_cons_of_mem _ hu)
    rcases ht with rfl | rfl | rfl <;>
      simp [tagsToMask, maskMeaning, tagMASK, tagOUT, tagIN, hrest,
        outFn, MaskOutType.hasMask, MaskOutType.hasOut, MaskOutType.hasIn]

theorem getOutMask_explicit (mot : MaskOutType) (faces2 : List BFace)
    (capIdxs : List Nat) (h01 : ∀ f ∈ faces2, f.tag = 0 ∨ f.tag = 1) :
    getOutMask mot faces2 capIdxs
      = some ((faces2.mapIdx fun k f =>
          if k ∈ capIdxs then tagIN else f.tag).map (outFn mot)) := by
  unfold getOutMask
  apply tagsToMask_explicit
  intro t ht
  obtain ⟨i, hi, rfl⟩ := mem_mapIdx_ex ht
  by_cases hk : i ∈ capIdxs
  · rw [if_pos hk]
    right; right; rfl
  · rw [if_neg hk]
    have := h01 (faces2.get ⟨i, hi⟩) (List.get_mem faces2 i hi)
    rcases this with h | h
    · left; exact h
    · right; left; exact h

theorem getD_mem_or_default {α : Type} (l : List α) (i : Nat) (d : α) :
    l.getD i d ∈ l ∨ l.getD i d = d := by
  by_cases hi : i < l.length
  · left
    rw [List.getD_eq_getElem _ _ hi]
    exact List.getElem_mem _
  · right
    exact List.getD_eq_default _ _ (by omega)

theorem fillFacesLayer_tags01 {bm : BMesh} {ms : List Int}
    (h01 : ∀ m ∈ ms, m = 0 ∨ m = 1) :
    ∀ f ∈ (fillFacesLayer bm ms).faces, f.tag = 0 ∨ f.tag = 1 := by
  intro f hf
  simp only [fillFacesLayer] at hf
  obtain ⟨i, hi, rfl⟩ := mem_mapIdx_ex hf
  simp only
  rcases getD_mem_or_default ms i tagOUT with hmem | hdef
  · exact h01 _ hmem
  · right; rw [hdef]; rfl

theorem extrudeAll_tags (fs : List BFace) :
    ∀ (verts : List V3) (f : BFace),
      (f ∈ (extrudeAll verts fs).2.1 ∨ f ∈ (extrudeAll verts fs).2.2) →
      ∃ g ∈ fs, f.tag = g.tag := by
  induction fs with
  | nil =>
    intro verts f hf
    rcases hf with hf | hf <;> simp [extrudeAll] at hf
  | cons g rest ih =>
    intro verts f hf
    rcases hf with hf | hf
    · simp only [extrudeAll, List.mem_append] at hf
      rcases hf with hf | hf
      · simp only [sideFacesOf, List.mem_map] at hf
        obtain ⟨j, _, rfl⟩ := hf
        exact ⟨g, List.mem_cons_self _ _, rfl⟩
      · obtain ⟨g', hg', htag⟩ := ih _ f (Or.inl hf)
        exact ⟨g', List.mem_cons_of_mem _ hg', htag⟩
    · simp only [extrudeAll, List.mem_cons] at hf
      rcases hf with rfl | hf
      · exact ⟨g, List.mem_cons_self _ _, rfl⟩
      · obtain ⟨g', hg', htag⟩ := ih _ f (Or.inr hf)
        exact ⟨g', List.mem_cons_of_mem _ hg', htag⟩

theorem enum_snd_mem {α : Type} {l : List α} {p : Nat × α}
    (h : p ∈ l.enum) : p.2 ∈ l := by
  obtain ⟨i, hi, hpi⟩ := List.mem_iff_getElem.mp h
  rw [List.getElem_enum] at hpi
  have hil : i < l.length := by simpa [List.enum_length] using hi
  rw [← hpi]
  exact List.getElem_mem _

theorem extrudeDF_tags01 {bm : BMesh} {sel : List Nat}
    (h01 : ∀ f ∈ bm.faces, f.tag = 0 ∨ f.tag = 1) :
    ∀ f ∈ (extrudeDiscreteFaces bm sel).1.faces, f.tag = 0 ∨ f.tag = 1 := by
  intro f hf
  rw [extrudeDF_faces] at hf
  have hsel01 : ∀ g ∈ (sel.map fun i => bm.faces.getD i ⟨[], tagOUT⟩),
      g.tag = 0 ∨ g.tag = 1 := by
    intro g hg
    obtain ⟨i, _, rfl⟩ := List.mem_map.mp hg
    rcases getD_mem_or_default bm.faces i ⟨[], tagOUT⟩ with hmem | hdef
    · exact h01 _ hmem
    · right; rw [hdef]; rfl
  rcases List.mem_append.mp hf with hf | hcap
  · rcases List.mem_append.mp hf with hkept | hside
    · obtain ⟨p, hp, rfl⟩ := List.mem_map.mp hkept
      exact h01 _ (enum_snd_mem (List.mem_of_mem_filter hp))
    · obtain ⟨g, hg, htag⟩ := extrudeAll_tags _ _ _ (Or.inl hside)
      rw [htag]
      exact hsel01 _ hg
  · obtain ⟨g, hg, htag⟩ := extrudeAll_tags _ _ _ (Or.inr hcap)
    rw [htag]
    exact hsel01 _ hg

theorem outFn_01 (mot : MaskOutType) (t : Int) :
    outFn mot t = 0 ∨ outFn mot t = 1 := by
  unfold outFn
  split_ifs <;> simp

theorem map_getD_lt {α β : Type} (f : α → β) (l : List α) (k : Nat)
    (d : β) (d' : α) (h : k < l.length) :
    (l.map f).getD k d = f (l.getD k d') := by
  rw [List.getD_eq_getElem _ _ (by simpa using h), List.getElem_map,
    List.getD_eq_getElem _ _ h]

/-- C5: when the Mask output is consumed, the emitted mask has one entry
per face of the final mesh, every entry is 0 or 1, and an entry is 1
exactly when the face's tag name lies in the configured `mask_out_type`
set — the face counting as IN when it is a cap returned by the extrusion,
as MASK when its inherited tag (the resolved input mask of its originating
face) is 0, and as OUT otherwise; all final tags are 0/1-valued resolved
mask values. -/
theorem c5_out_mask (cfg : NodeCfg) (vIn : Bool) (links : OutLinks)
    (vertices : List V3) (faces : List (List Nat)) (ms0 : List Int)
    (hs0 : List ℝ) (ss0 : List ScaleV) (xs0 : List Aff) (r : ItemResult)
    (ms : List Int) (bm : BMesh)
    (h : processItem cfg vIn links vertices faces ms0 hs0 ss0 xs0 = some r)
    (hmk : links.mask = true)
    (hms : fullList ms0 faces.length = some ms)
    (hbm : bmeshFromPydata vertices faces = some bm)
    (h01 : ∀ m ∈ ms0, m = 0 ∨ m = 1) :
    ∃ om, r.maskOut = some om ∧
      om.length = r.faces.length ∧
      (∀ k, om.getD k 0 = 0 ∨ om.getD k 0 = 1) ∧
      (∀ k, k < om.length →
        (om.getD k 0 = 1 ↔
          ((k ∈ capIdxsOf (coreER cfg bm ms).1 (coreER cfg bm ms).2 ∧
              cfg.maskOutType.hasIn = true) ∨
           (k ∉ capIdxsOf (coreER cfg bm ms).1 (coreER cfg bm ms).2 ∧
              ((coreER cfg bm ms).1.faces.getD k ⟨[], 0⟩).tag = tagMASK ∧
              cfg.maskOutType.hasMask = true) ∨
           (k ∉ capIdxsOf (coreER cfg bm ms).1 (coreER cfg bm ms).2 ∧
              ((coreER cfg bm ms).1.faces.getD k ⟨[], 0⟩).tag ≠ tagMASK ∧
              cfg.maskOutType.hasOut = true)))) ∧
      (∀ f ∈ (coreER cfg bm ms).1.faces, f.tag = 0 ∨ f.tag = 1) := by
  obtain ⟨hs, ss, xs, ms', bm', hhs, hss, hxs, hms', hbm', hcore⟩ :=
    processItem_inv h
  have hmse : ms' = ms := Option.some.inj (by rw [← hms', ← hms])
  have hbme : bm' = bm := Option.some.inj (by rw [← hbm', ← hbm])
  rw [hmse, hbme] at hcore
  obtain ⟨verts2, happ, hv, hf, he, ho, hmask, _⟩ := processCore_inv hcore
  obtain ⟨om, hom, hmo⟩ := hmask hmk
  have hms01 : ∀ m ∈ ms, m = 0 ∨ m = 1 :=
    fun m hm => h01 m (fullList_mem hms m hm)
  have htags2 : ∀ f ∈ (coreER cfg bm ms).1.faces, f.tag = 0 ∨ f.tag = 1 := by
    simp only [coreER]
    exact extrudeDF_tags01 (fillFacesLayer_tags01 hms01)
  have hexp := getOutMask_explicit cfg.maskOutType (coreER cfg bm ms).1.faces
    (capIdxsOf (coreER cfg bm ms).1 (coreER cfg bm ms).2) htags2
  have home : om = ((coreER cfg bm ms).1.faces.mapIdx fun k f =>
      if k ∈ capIdxsOf (coreER cfg bm ms).1 (coreER cfg bm ms).2 then tagIN
      else f.tag).map (outFn cfg.maskOutType) :=
    Option.some.inj (by rw [← hom, hexp])
  have hlen : om.length = (coreER cfg bm ms).1.faces.length := by
    rw [home]
    simp [List.length_map, List.length_mapIdx]
  refine ⟨om, hmo, ?_, ?_, ?_, htags2⟩
  · rw [hlen, hf]
    simp [pydataFaces]
  · intro k
    by_cases hk : k < om.length
    · have hklen : k < (coreER cfg bm ms).1.faces.length := by omega
      have hval : om.getD k 0 = outFn cfg.maskOutType
          (if k ∈ capIdxsOf (coreER cfg bm ms).1 (coreER cfg bm ms).2
            then tagIN
            else ((coreER cfg bm ms).1.faces.getD k ⟨[], 0⟩).tag) := by
        rw [home, map_getD_lt _ _ k 0 0
          (by simpa [List.length_mapIdx] using hklen)]
        congr 1
        exact mapIdx_getD _ _ k (0 : Int) (⟨[], 0⟩ : BFace) hklen
      rw [hval]
      exact outFn_01 _ _
    · left
      exact List.getD_eq_default _ _ (by omega)
  · intro k hk
    have hklen : k < (coreER cfg bm ms).1.faces.length := by omega
    have hval : om.getD k 0 = outFn cfg.maskOutType
        (if k ∈ capIdxsOf (coreER cfg bm ms).1 (coreER cfg bm ms).2
          then tagIN
          else ((coreER cfg bm ms).1.faces.getD k ⟨[], 0⟩).tag) := by
      rw [home, map_getD_lt _ _ k 0 0
        (by simpa [List.length_mapIdx] using hklen)]
      congr 1
      exact mapIdx_getD _ _ k (0 : Int) (⟨[], 0⟩ : BFace) hklen
    rw [hval]
    by_cases hk2 : k ∈ capIdxsOf (coreER cfg bm ms).1 (coreER cfg bm ms).2
    · rw [if_pos hk2]
      cases hin : cfg.maskOutType.hasIn <;>
        simp [outFn, tagIN, tagMASK, hk2, hin]
    · rw [if_neg hk2]
      have htag := htags2 ((coreER cfg bm ms).1.faces.getD k ⟨[], 0⟩)
        (by rw [List.getD_eq_getElem _ _ hklen]; exact List.getElem_mem _)
      rcases htag with h0 | h1
      · rw [h0]
        cases hm : cfg.maskOutType.hasMask <;>
          simp [outFn, tagMASK, hk2, hm, h0]
      · rw [h1]
        cases hso : cfg.maskOutType.hasOut <;>
          simp [outFn, tagMASK, hk2, hso, h1]

/-- Output links with the Mask output consumed, for the C5 witness. -/
def mLinks : OutLinks := ⟨true, false, true, true, true, true⟩

/-- Result of the concrete masked-out run with the Mask output consumed:
the single surviving face is tagged MASK, which is not in the default
`{out}` output set, so the emitted mask is `[0]`. -/
def mRes : ItemResult := ⟨wVerts, [[0, 1, 2]], [], [[0, 1, 2]], some [0]⟩

theorem mRun : processItem wCfg false mLinks wVerts [[0, 1, 2]] [0] [0]
    [ScaleV.flo 1] [Aff.id] = some mRes := rfl

/-- C5 witness: the concrete run's emitted mask exists, has one entry per
final face, is 0/1-valued and follows the tag classification. -/
theorem c5_out_mask_witness :
    ∃ om, mRes.maskOut = some om ∧
      om.length = mRes.faces.length ∧
      (∀ k, om.getD k 0 = 0 ∨ om.getD k 0 = 1) ∧
      (∀ k, k < om.length →
        (om.getD k 0 = 1 ↔
          ((k ∈ capIdxsOf (coreER wCfg wBM [0]).1 (coreER wCfg wBM [0]).2 ∧
              wCfg.maskOutType.hasIn = true) ∨
           (k ∉ capIdxsOf (coreER wCfg wBM [0]).1 (coreER wCfg wBM [0]).2 ∧
              ((coreER wCfg wBM [0]).1.faces.getD k ⟨[], 0⟩).tag = tagMASK ∧
              wCfg.maskOutType.hasMask = true) ∨
           (k ∉ capIdxsOf (coreER wCfg wBM [0]).1 (coreER wCfg wBM [0]).2 ∧
              ((coreER wCfg wBM [0]).1.faces.getD k ⟨[], 0⟩).tag ≠ tagMASK ∧
              wCfg.maskOutType.hasOut = true)))) ∧
      (∀ f ∈ (coreER wCfg wBM [0]).1.faces, f.tag = 0 ∨ f.tag = 1) :=
  c5_out_mask wCfg false mLinks wVerts [[0, 1, 2]] [0] [0] [ScaleV.flo 1]
    [Aff.id] mRes [0] wBM mRun rfl rfl rfl (by decide)

end ExtrudeSep
